/-
Verification of the Haberlea download-queue core: a shallow embedding of
`src/haberlea/download_queue.py`, the population phase of
`src/haberlea/music_downloader.py`, the region-restriction failover of
`src/haberlea/core.py`, and the retry policy (tenacity configuration) used by
the per-track pipeline and raw byte streaming.

Python `dict`s are modelled as association lists with insert-or-replace
semantics, Python `set`s as `Finset String`, exceptions as an explicit
`Except PyExc` result, and the job-completion callback / progress sink as an
emitted event list.  Machine floats only appear in the progress ratio, which
is a division of two small naturals; it is modelled exactly in `ℚ`.
-/
import Mathlib

/-- Python exception values relevant to the embedded code.  The constructors
mirror the exception classes of `utils/exceptions.py` together with the
builtin/aiohttp exception types appearing in the retry decorators.  -/
inductive PyExc where
  | regionRestricted (msg : String)
  | keyError (msg : String)
  | invalidInput (msg : String)
  | invalidTrack (msg : String)
  | clientError (msg : String)
  | timeoutError (msg : String)
  | osError (msg : String)
  | tagSavingFailure (msg : String)
  | other (msg : String)
deriving DecidableEq, Repr

/-- `str(e)`: the message carried by the exception. -/
def PyExc.message : PyExc → String
  | .regionRestricted m => m
  | .keyError m => m
  | .invalidInput m => m
  | .invalidTrack m => m
  | .clientError m => m
  | .timeoutError m => m
  | .osError m => m
  | .tagSavingFailure m => m
  | .other m => m

/-- `isinstance(e, RegionRestrictedError)`. -/
def PyExc.isRegionRestricted : PyExc → Bool
  | .regionRestricted _ => true
  | _ => false

/-- `utils/progress.py` `ProgressStatus` enum. -/
inductive ProgressStatus where
  | pending
  | downloading
  | completed
  | failed
  | skipped
deriving DecidableEq, Repr

/-- `download_queue.py` `JobStatus` enum.  The source member `PARTIAL` is
rendered `partialDone` because `partial` is a Lean keyword. -/
inductive JobStatus where
  | pending
  | downloading
  | completed
  | partialDone
  | failed
deriving DecidableEq, Repr

/-- `download_queue.py` `MediaType` enum. -/
inductive MediaType where
  | TRACK
  | ALBUM
  | PLAYLIST
  | ARTIST
deriving DecidableEq, Repr

/-- `utils/models.py` `DownloadTypeEnum` (media kinds as requested by the
caller of the orchestration entry point). -/
inductive DownloadTypeEnum where
  | track
  | album
  | playlist
  | artist
deriving DecidableEq, Repr

/-- Opaque stand-in for the pre-fetched per-track data blob
(`dict[str, Any]` in the source); its contents are never inspected by the
queue or population logic, only passed through. -/
structure TrackData where
  payload : String := ""
deriving DecidableEq, Repr

/-- The slice of `TrackInfo` (`utils/models.py`) that the embedded code
reads; the remaining fields are consumed only by the byte-level pipeline,
which is abstracted. -/
structure TrackInfo where
  name : String := ""
  artists : List String := []
  album : String := ""
  errorMsg : Option String := none
deriving DecidableEq, Repr

/-- Association-list lookup, modelling Python `dict.get(key)`. -/
def dget {α : Type} : List (String × α) → String → Option α
  | [], _ => none
  | (k, v) :: rest, key => if key = k then some v else dget rest key

/-- Association-list insert-or-replace, modelling `dict[key] = val`. -/
def dinsert {α : Type} (key : String) (val : α) : List (String × α) → List (String × α)
  | [] => [(key, val)]
  | (k, v) :: rest => if k = key then (key, val) :: rest else (k, v) :: dinsert key val rest

/-- `download_queue.py` `TrackTask`: one schedulable track download unit.
The `module` field (a live backend instance in the source) is modelled by
`ModuleBase`, defined below; to avoid a forward reference the task is
parametrised by the module type. -/
structure TrackTaskOf (M : Type) where
  track_id : String
  job_id : String
  module_name : String
  module : M
  download_path : String := ""
  track_index : Nat := 0
  total_tracks : Nat := 0
  main_artist : String := ""
  track_data : Option TrackData := none
  account_index : Nat := 0

/-- `download_queue.py` `DownloadJob`: one original request. -/
structure DownloadJob where
  job_id : String
  original_url : String := ""
  media_type : MediaType := MediaType.TRACK
  media_id : String := ""
  module_name : String := ""
  name : String := ""
  artist : String := ""
  download_path : String := ""
  track_ids : List String := []
  track_infos : List (String × TrackInfo) := []
  completed_tracks : Finset String := ∅
  failed_tracks : Finset String := ∅
  skipped_tracks : Finset String := ∅
  status : JobStatus := JobStatus.pending
  created_at : Nat := 0
  cover_url : String := ""
deriving DecidableEq

/-- `DownloadJob.has_successful_downloads`. -/
def DownloadJob.has_successful_downloads (j : DownloadJob) : Bool :=
  decide (0 < j.completed_tracks.card)

/-- `DownloadJob.total_tracks`: `len(self.track_ids)`. -/
def DownloadJob.total_tracks (j : DownloadJob) : Nat :=
  j.track_ids.length

/-- `DownloadJob.finished_tracks`:
`len(completed) + len(failed) + len(skipped)`. -/
def DownloadJob.finished_tracks (j : DownloadJob) : Nat :=
  j.completed_tracks.card + j.failed_tracks.card + j.skipped_tracks.card

/-- `DownloadJob.is_finished`:
`finished_tracks >= total_tracks and total_tracks > 0`. -/
def DownloadJob.is_finished (j : DownloadJob) : Bool :=
  decide (j.total_tracks ≤ j.finished_tracks ∧ 0 < j.total_tracks)

/-- `DownloadJob.progress`: `finished_tracks / total_tracks`, `0.0` when the
job has no tracks.  The float division of two naturals is modelled in `ℚ`. -/
def DownloadJob.progress (j : DownloadJob) : ℚ :=
  if j.total_tracks = 0 then 0 else (j.finished_tracks : ℚ) / (j.total_tracks : ℚ)

/-- `download_queue.py` `JobProgress` (frozen struct). -/
structure JobProgress where
  completed : Nat
  failed : Nat
  skipped : Nat
  total : Nat
deriving DecidableEq, Repr

/-- `JobProgress.finished`: `completed + failed + skipped`. -/
def JobProgress.finished (p : JobProgress) : Nat :=
  p.completed + p.failed + p.skipped

/-- `JobProgress.progress`: ratio in `[0, 1]` by intent; `0.0` when
`total == 0`. -/
def JobProgress.progress (p : JobProgress) : ℚ :=
  if p.total = 0 then 0 else (p.finished : ℚ) / (p.total : ℚ)

/-- `JobProgress.is_finished`: `finished >= total and total > 0`. -/
def JobProgress.is_finished (p : JobProgress) : Bool :=
  decide (p.total ≤ p.finished ∧ 0 < p.total)

/-- `AlbumInfo` (`utils/models.py`): the fields read during population. -/
structure AlbumInfo where
  name : String := ""
  artist : String := ""
  release_year : Nat := 0
  tracks : List String := []
  track_data : Option TrackData := none
  cover_url : Option String := none
deriving DecidableEq, Repr

/-- `PlaylistInfo` (`utils/models.py`): the fields read during population. -/
structure PlaylistInfo where
  name : String := ""
  creator : String := ""
  duration : Nat := 0
  tracks : List String := []
  track_data : Option TrackData := none
  cover_url : Option String := none
deriving DecidableEq, Repr

/-- `ArtistInfo` (`utils/models.py`): the fields read during population. -/
structure ArtistInfo where
  name : String := ""
  albums : List String := []
  tracks : List String := []
  album_data : Option TrackData := none
  track_data : Option TrackData := none
deriving DecidableEq, Repr

/-- A loaded backend instance (`ModuleBase` in `plugins/base.py`), scoped to
one account.  The metadata calls either raise (`Except.error`) or return an
optional info object, exactly the shapes `queue_album` / `queue_playlist` /
`queue_artist` consume.  `account_index` records which account the instance
was loaded with (`ModuleController.account_index` in `utils/models.py`). -/
structure ModuleBase where
  account_index : Nat := 0
  get_album_info : String → Option TrackData → Except PyExc (Option AlbumInfo) :=
    fun _ _ => Except.ok none
  get_playlist_info : String → Except PyExc (Option PlaylistInfo) :=
    fun _ => Except.ok none
  get_artist_info : String → Bool → Except PyExc (Option ArtistInfo) :=
    fun _ _ => Except.ok none

/-- `TrackTask` instantiated at the backend-instance model. -/
abbrev TrackTask := TrackTaskOf ModuleBase

/-- Externally observable side effects of the queue: calls into the progress
sink (`utils/progress.py`) and the job-completion protocol. -/
inductive QueueEvent where
  | progressTaskCreated (track_id : String)
  | progressUpdated (track_id : String) (status : Option ProgressStatus)
      (progressRat : Option ℚ) (message : Option String)
  | jobStatusSet (job_id : String) (status : JobStatus)
  | jobCompleteCallback (job_id : String)
  | extensionsTrackComplete (job_id track_id : String)
deriving DecidableEq

/-- `download_queue.py` `DownloadQueue` state.  The semaphore, quality tier
and codec options do not affect the bookkeeping modelled here; the presence
of the optional `on_job_complete` callback is kept as a flag, and its
invocations are emitted as `QueueEvent.jobCompleteCallback`. -/
structure DownloadQueue where
  has_on_job_complete : Bool := true
  jobs : List (String × DownloadJob) := []
  track_tasks : List (String × TrackTask) := []

/-- `DownloadQueue.create_job`: allocates a new job record and registers it.
`job_id` stands for the result of `_generate_job_id` (`uuid.uuid4()`), which
the caller supplies; `created_at` stands for `time.time()`. -/
def DownloadQueue.create_job (q : DownloadQueue) (job_id : String)
    (original_url : String) (media_type : MediaType) (media_id : String)
    (module_name : String) (name : String) (artist : String)
    (download_path : String) (cover_url : String) (created_at : Nat) :
    DownloadQueue × String :=
  let job : DownloadJob :=
    { job_id := job_id
      original_url := original_url
      media_type := media_type
      media_id := media_id
      module_name := module_name
      name := name
      artist := artist
      download_path := download_path
      cover_url := cover_url
      created_at := created_at }
  ({ q with jobs := dinsert job_id job q.jobs }, job_id)

/-- `DownloadQueue.add_track`: raises `KeyError` when the job id is unknown;
otherwise appends the task's track id to the job's track-id list, registers
the task, and creates the external progress task (emitted as an event). -/
def DownloadQueue.add_track (q : DownloadQueue) (job_id : String) (task : TrackTask) :
    Except PyExc (DownloadQueue × List QueueEvent) :=
  match dget q.jobs job_id with
  | none => Except.error (PyExc.keyError ("Job " ++ job_id ++ " not found"))
  | some job =>
    let job1 := { job with track_ids := job.track_ids ++ [task.track_id] }
    Except.ok
      ({ q with
          jobs := dinsert job_id job1 q.jobs
          track_tasks := dinsert task.track_id task q.track_tasks },
        [QueueEvent.progressTaskCreated task.track_id])

/-- `DownloadQueue.get_job`. -/
def DownloadQueue.get_job (q : DownloadQueue) (job_id : String) : Option DownloadJob :=
  dget q.jobs job_id

/-- `DownloadQueue.get_track_task`. -/
def DownloadQueue.get_track_task (q : DownloadQueue) (track_id : String) : Option TrackTask :=
  dget q.track_tasks track_id

/-- `DownloadQueue.job_count`. -/
def DownloadQueue.job_count (q : DownloadQueue) : Nat :=
  q.jobs.length

/-- `DownloadQueue.track_count`. -/
def DownloadQueue.track_count (q : DownloadQueue) : Nat :=
  q.track_tasks.length

/-- `DownloadQueue.mark_track_complete`: adds the track id to the matching
set of its job, then, when the job is finished, assigns the terminal status
and invokes the completion callback.  Unknown track ids or job ids log a
warning and return with no state change.  The status assignment and callback
invocation are emitted as events. -/
def DownloadQueue.mark_track_complete (q : DownloadQueue) (track_id : String)
    (status : ProgressStatus) : DownloadQueue × List QueueEvent :=
  match dget q.track_tasks track_id with
  | none => (q, [])
  | some task =>
    match dget q.jobs task.job_id with
    | none => (q, [])
    | some job =>
      let job1 :=
        if status = ProgressStatus.completed then
          { job with completed_tracks := insert track_id job.completed_tracks }
        else if status = ProgressStatus.failed then
          { job with failed_tracks := insert track_id job.failed_tracks }
        else if status = ProgressStatus.skipped then
          { job with skipped_tracks := insert track_id job.skipped_tracks }
        else job
      if job1.is_finished then
        let new_status :=
          if job1.failed_tracks ≠ ∅ then JobStatus.partialDone else JobStatus.completed
        ({ q with jobs := dinsert task.job_id { job1 with status := new_status } q.jobs },
          QueueEvent.jobStatusSet task.job_id new_status ::
            (if q.has_on_job_complete then [QueueEvent.jobCompleteCallback task.job_id] else []))
      else
        ({ q with jobs := dinsert task.job_id job1 q.jobs }, [])

/-- `DownloadQueue.update_progress` restricted to the arguments the embedded
call sites use (`status`, `progress`, `message`): forwards the event to the
progress sink, and flips the owning job from PENDING to DOWNLOADING when a
track first reports the DOWNLOADING status. -/
def DownloadQueue.update_progress (q : DownloadQueue) (track_id : String)
    (status : Option ProgressStatus) (progressRat : Option ℚ) (message : Option String) :
    DownloadQueue × List QueueEvent :=
  let ev := QueueEvent.progressUpdated track_id status progressRat message
  match dget q.track_tasks track_id with
  | none => (q, [ev])
  | some task =>
    if status = some ProgressStatus.downloading then
      match dget q.jobs task.job_id with
      | none => (q, [ev])
      | some job =>
        if job.status = JobStatus.pending then
          ({ q with
              jobs := dinsert task.job_id { job with status := JobStatus.downloading } q.jobs },
            [ev])
        else (q, [ev])
    else (q, [ev])

/-- `DownloadQueue.get_job_progress`: zeroed record for unknown jobs. -/
def DownloadQueue.get_job_progress (q : DownloadQueue) (job_id : String) : JobProgress :=
  match dget q.jobs job_id with
  | none => { completed := 0, failed := 0, skipped := 0, total := 0 }
  | some job =>
    { completed := job.completed_tracks.card
      failed := job.failed_tracks.card
      skipped := job.skipped_tracks.card
      total := job.total_tracks }

/-- One external call into the queue's mutating interface, as exercised by the
population and processing phases. -/
inductive QueueOp where
  | createJob (job_id original_url : String) (media_type : MediaType)
      (media_id module_name name artist download_path cover_url : String)
  | addTrack (job_id : String) (task : TrackTask)
  | markTrackComplete (track_id : String) (status : ProgressStatus)

/-- Applies one call to the queue.  An `add_track` on an unknown job raises;
the raise happens before any mutation, so the queue state is unchanged (the
caller observes the exception, which sequences of calls here simply survive).
-/
def QueueOp.apply (q : DownloadQueue) : QueueOp → DownloadQueue × List QueueEvent
  | .createJob jid url mt mid mn nm ar dp cu =>
    ((q.create_job jid url mt mid mn nm ar dp cu 0).1, [])
  | .addTrack jid task =>
    match q.add_track jid task with
    | Except.ok (q', evs) => (q', evs)
    | Except.error _ => (q, [])
  | .markTrackComplete tid s => q.mark_track_complete tid s

/-- Runs a sequence of queue calls, accumulating emitted events. -/
def runOps : DownloadQueue → List QueueOp → DownloadQueue × List QueueEvent
  | q, [] => (q, [])
  | q, op :: rest =>
    let r := op.apply q
    let r' := runOps r.1 rest
    (r'.1, r.2 ++ r'.2)

/-- The empty queue with a registered job-completion callback. -/
def emptyQueue : DownloadQueue :=
  { has_on_job_complete := true, jobs := [], track_tasks := [] }

/-- Number of job-completion callback invocations for `job_id` in an event
trace. -/
def cbCount (job_id : String) (evs : List QueueEvent) : Nat :=
  List.count (QueueEvent.jobCompleteCallback job_id) evs

/-- The sequence of terminal statuses assigned to `job_id` in an event
trace. -/
def statusSetsFor (job_id : String) (evs : List QueueEvent) : List JobStatus :=
  evs.filterMap fun e =>
    match e with
    | QueueEvent.jobStatusSet jid v => if jid = job_id then some v else none
    | _ => none

/-- Whether a progress status lands the track in one of the three completion
sets (`COMPLETED`, `FAILED`, `SKIPPED`). -/
def bucketStatus : ProgressStatus → Bool
  | ProgressStatus.completed => true
  | ProgressStatus.failed => true
  | ProgressStatus.skipped => true
  | _ => false

/-- The track ids of the `markTrackComplete` calls in a sequence (with
multiplicity). -/
def markTids (ops : List QueueOp) : List String :=
  ops.filterMap fun op =>
    match op with
    | QueueOp.markTrackComplete tid _ => some tid
    | _ => none

/-- The `(track_id, status)` pairs of the bucket-statused `markTrackComplete`
calls in a sequence. -/
def bucketMarks (ops : List QueueOp) : List (String × ProgressStatus) :=
  ops.filterMap fun op =>
    match op with
    | QueueOp.markTrackComplete tid s => if bucketStatus s then some (tid, s) else none
    | _ => none

/-- Each `create_job` call in the sequence uses an id not already present:
this is the uniqueness `uuid.uuid4()` guarantees in `_generate_job_id`. -/
def createsFresh : DownloadQueue → List QueueOp → Prop
  | _, [] => True
  | q, op :: rest =>
    (match op with
     | QueueOp.createJob jid _ _ _ _ _ _ _ _ => dget q.jobs jid = none
     | _ => True) ∧ createsFresh (op.apply q).1 rest

instance : ∀ (q : DownloadQueue) (ops : List QueueOp), Decidable (createsFresh q ops)
  | _, [] => by
    unfold createsFresh
    exact inferInstance
  | q, op :: rest => by
    unfold createsFresh
    have : Decidable (createsFresh (op.apply q).1 rest) := instDecidableCreatesFresh _ _
    cases op <;> exact inferInstance

/-- Each `add_track` call passes a task whose `job_id` field names the job it
is being added to — how every call site in `music_downloader.py` builds the
task. -/
def addsMatched (ops : List QueueOp) : Prop :=
  ∀ jid task, QueueOp.addTrack jid task ∈ ops → jid = task.job_id

/-- No track id is marked with two different completion statuses. -/
def marksConsistent (ops : List QueueOp) : Prop :=
  (bucketMarks ops).Pairwise fun a b => a.1 = b.1 → a.2 = b.2

/-- No track id is marked twice at all. -/
def marksAtMostOnce (ops : List QueueOp) : Prop :=
  (markTids ops).Nodup

/-- `utils/utils.py` `sanitise_name`: strips trailing whitespace and replaces
filesystem-hostile characters with underscores. -/
def sanitise_name (name : String) : String :=
  if name = "" then ""
  else
    String.map
      (fun c =>
        if c == '\\' || c == '/' || c == '*' || c == '?' || c == '"' || c == ',' ||
            c == '<' || c == '>' || c == '|' || c == '$' || c == ':' then '_' else c)
      (name.dropRightWhile fun c => c == ' ' || c == '\t')

/-- Python `a or b` on strings: `b` when `a` is empty. -/
def strOr (a b : String) : String :=
  if a = "" then b else a

/-- Python `s.split("/")[-2]` (used to re-root an album path under an artist
directory). -/
def splitPenultimate (s : String) : String :=
  let parts := s.splitOn "/"
  parts.getD (parts.length - 2) ""

/-- The external path-builder collaborator (`utils/path_builder.py`),
consumed as opaque functions. -/
structure PathBuilder where
  base_path : String := ""
  build_album_path : String → AlbumInfo → String := fun _ _ => ""
  build_playlist_path : PlaylistInfo → String := fun _ => ""

/-- The slice of the global settings the embedded downloader logic reads. -/
structure DownloaderSettings where
  dry_run : Bool := false
  separate_tracks_skip_downloaded : Bool := true
  return_credited_albums : Bool := true
  abort_download_when_single_failed : Bool := false

/-- `music_downloader.py` `Downloader` configuration (its queue is threaded
separately through `DownloaderState`). -/
structure Downloader where
  path_builder : PathBuilder := {}
  settings : DownloaderSettings := {}

/-- The mutable state the population phase drives: the download queue plus a
supply of fresh job ids standing for `uuid.uuid4()` (collision-free by
construction). -/
structure DownloaderState where
  queue : DownloadQueue := emptyQueue
  next_job_uuid : Nat := 0

/-- The id `_generate_job_id` returns for the `n`-th `uuid.uuid4()` draw. -/
def fresh_job_id (n : Nat) : String :=
  "uuid-" ++ toString n

/-- The track-queueing loop shared by `queue_album` and `queue_playlist`:
enumerates child track ids 1-based and calls `add_track` for each. -/
def add_indexed_tracks (job_id module_name : String) (module : ModuleBase)
    (dl_path : String) (total : Nat) (main_artist : String)
    (track_data : Option TrackData) :
    DownloadQueue → Nat → List String → DownloadQueue × Option PyExc
  | q, _, [] => (q, none)
  | q, index, tid :: rest =>
    match q.add_track job_id
        { track_id := tid, job_id := job_id, module_name := module_name,
          module := module, download_path := dl_path, track_index := index,
          total_tracks := total, main_artist := main_artist,
          track_data := track_data } with
    | Except.ok (q', _) =>
      add_indexed_tracks job_id module_name module dl_path total main_artist
        track_data q' (index + 1) rest
    | Except.error e => (q, some e)

/-- `Downloader.queue_track`: creates a single-track job and adds the one
task. -/
def Downloader.queue_track (d : Downloader) (st : DownloaderState)
    (track_id module_name : String) (module : ModuleBase)
    (original_url : String) (track_data : Option TrackData) :
    DownloaderState × Except PyExc String :=
  let job_id := fresh_job_id st.next_job_uuid
  let q1 := (st.queue.create_job job_id
      (strOr original_url (module_name ++ ":track:" ++ track_id))
      MediaType.TRACK track_id module_name "" "" d.path_builder.base_path "" 0).1
  let task : TrackTask :=
    { track_id := track_id, job_id := job_id, module_name := module_name,
      module := module, download_path := d.path_builder.base_path,
      track_data := track_data }
  match q1.add_track job_id task with
  | Except.ok (q2, _) =>
    ({ queue := q2, next_job_uuid := st.next_job_uuid + 1 }, Except.ok job_id)
  | Except.error e =>
    ({ queue := q1, next_job_uuid := st.next_job_uuid + 1 }, Except.error e)

/-- `Downloader.queue_album`: fetches album metadata (which may raise, e.g. a
region restriction), creates a job unless nested under an artist job, then
queues all child tracks.  Side-asset downloads (`_download_album_assets`)
are external file I/O with no queue effect and are elided.  Exceptions leave
the partially-mutated state in place, as in the source where the queue is
shared and mutated in place. -/
def Downloader.queue_album (d : Downloader) (st : DownloaderState)
    (album_id module_name : String) (module : ModuleBase)
    (original_url artist_name base_path : String)
    (album_data : Option TrackData) (parent_job_id : Option String) :
    DownloaderState × Except PyExc (Option AlbumInfo × Option String) :=
  match module.get_album_info album_id album_data with
  | Except.error e => (st, Except.error e)
  | Except.ok none => (st, Except.ok (none, none))
  | Except.ok (some album_info) =>
    let album_path0 := d.path_builder.build_album_path album_id album_info
    let album_path :=
      if base_path ≠ "" then base_path ++ splitPenultimate album_path0 ++ "/"
      else album_path0
    let stjid : DownloaderState × String :=
      match parent_job_id with
      | some jid => (st, jid)
      | none =>
        let jid := fresh_job_id st.next_job_uuid
        let q1 := (st.queue.create_job jid
            (strOr original_url (module_name ++ ":album:" ++ album_id))
            MediaType.ALBUM album_id module_name album_info.name
            (strOr artist_name album_info.artist) album_path
            (Option.getD album_info.cover_url "") 0).1
        ({ queue := q1, next_job_uuid := st.next_job_uuid + 1 }, jid)
    let st1 := stjid.1
    let job_id := stjid.2
    match add_indexed_tracks job_id module_name module album_path
        album_info.tracks.length (strOr artist_name album_info.artist)
        album_info.track_data st1.queue 1 album_info.tracks with
    | (q2, none) =>
      ({ st1 with queue := q2 }, Except.ok (some album_info, some job_id))
    | (q2, some e) => ({ st1 with queue := q2 }, Except.error e)

/-- `Downloader.queue_playlist`: like `queue_album`, but the job and the
tasks are created against the download module (the custom module when a
separate download backend is configured for playlists). -/
def Downloader.queue_playlist (d : Downloader) (st : DownloaderState)
    (playlist_id module_name : String) (module : ModuleBase)
    (original_url : String) (custom_module_name : Option String)
    (custom_module : Option ModuleBase) :
    DownloaderState × Except PyExc (Option PlaylistInfo × Option String) :=
  match module.get_playlist_info playlist_id with
  | Except.error e => (st, Except.error e)
  | Except.ok none => (st, Except.ok (none, none))
  | Except.ok (some playlist_info) =>
    let playlist_path := d.path_builder.build_playlist_path playlist_info
    let dl_module := Option.getD custom_module module
    let dl_module_name := Option.getD custom_module_name module_name
    let jid := fresh_job_id st.next_job_uuid
    let q1 := (st.queue.create_job jid
        (strOr original_url (module_name ++ ":playlist:" ++ playlist_id))
        MediaType.PLAYLIST playlist_id dl_module_name playlist_info.name
        playlist_info.creator playlist_path
        (Option.getD playlist_info.cover_url "") 0).1
    match add_indexed_tracks jid dl_module_name dl_module playlist_path
        playlist_info.tracks.length "" playlist_info.track_data q1 1
        playlist_info.tracks with
    | (q2, none) =>
      ({ queue := q2, next_job_uuid := st.next_job_uuid + 1 },
        Except.ok (some playlist_info, some jid))
    | (q2, some e) =>
      ({ queue := q2, next_job_uuid := st.next_job_uuid + 1 }, Except.error e)

/-- The album loop of `queue_artist`: queues every album of the discography
under the artist's job id, collecting the album track ids for the standalone
skip check.  An exception (e.g. region restriction on one album's metadata)
propagates, keeping the state mutated so far. -/
def queue_artist_albums (d : Downloader) (module_name : String)
    (module : ModuleBase) (artist_name artist_path : String)
    (album_data : Option TrackData) (job_id : String) :
    DownloaderState → List String → DownloaderState × Finset String × Option PyExc
  | st, [] => (st, ∅, none)
  | st, album_id :: rest =>
    match d.queue_album st album_id module_name module "" artist_name
        artist_path album_data (some job_id) with
    | (st', Except.error e) => (st', ∅, some e)
    | (st', Except.ok r) =>
      match queue_artist_albums d module_name module artist_name artist_path
          album_data job_id st' rest with
      | (st2, ids, err) =>
        (st2,
          (match r.1 with
           | some i => i.tracks.toFinset
           | none => ∅) ∪ ids, err)

/-- The standalone-track loop of `queue_artist`: skips tracks already seen in
an album when `separate_tracks_skip_downloaded` is set. -/
def add_artist_standalone_tracks (skip_downloaded : Bool)
    (job_id module_name : String) (module : ModuleBase)
    (artist_path artist_name : String) (track_data : Option TrackData)
    (album_track_ids : Finset String) :
    DownloadQueue → List String → DownloadQueue × Option PyExc
  | q, [] => (q, none)
  | q, tid :: rest =>
    if skip_downloaded ∧ tid ∈ album_track_ids then
      add_artist_standalone_tracks skip_downloaded job_id module_name module
        artist_path artist_name track_data album_track_ids q rest
    else
      match q.add_track job_id
          { track_id := tid, job_id := job_id, module_name := module_name,
            module := module, download_path := artist_path,
            main_artist := artist_name, track_data := track_data } with
      | Except.ok (q', _) =>
        add_artist_standalone_tracks skip_downloaded job_id module_name module
          artist_path artist_name track_data album_track_ids q' rest
      | Except.error e => (q, some e)

/-- `Downloader.queue_artist`: creates one artist job, queues every album of
the discography under it, then the standalone tracks. -/
def Downloader.queue_artist (d : Downloader) (st : DownloaderState)
    (artist_id module_name : String) (module : ModuleBase)
    (original_url : String) :
    DownloaderState × Except PyExc (Option ArtistInfo × Option String) :=
  match module.get_artist_info artist_id d.settings.return_credited_albums with
  | Except.error e => (st, Except.error e)
  | Except.ok none => (st, Except.ok (none, none))
  | Except.ok (some artist_info) =>
    let artist_name := artist_info.name
    let artist_path := d.path_builder.base_path ++ sanitise_name artist_name ++ "/"
    let jid := fresh_job_id st.next_job_uuid
    let q1 := (st.queue.create_job jid
        (strOr original_url (module_name ++ ":artist:" ++ artist_id))
        MediaType.ARTIST artist_id module_name artist_name artist_name
        artist_path "" 0).1
    let st1 : DownloaderState := { queue := q1, next_job_uuid := st.next_job_uuid + 1 }
    match queue_artist_albums d module_name module artist_name artist_path
        artist_info.album_data jid st1 artist_info.albums with
    | (st2, _, some e) => (st2, Except.error e)
    | (st2, album_track_ids, none) =>
      match add_artist_standalone_tracks
          d.settings.separate_tracks_skip_downloaded jid module_name module
          artist_path artist_name artist_info.track_data album_track_ids
          st2.queue artist_info.tracks with
      | (q3, none) => ({ st2 with queue := q3 }, Except.ok (some artist_info, some jid))
      | (q3, some e) => ({ st2 with queue := q3 }, Except.error e)

/-- The slice of the `Haberlea` session (`core.py`) the failover logic
reads: the configured account count for a module and the account-indexed
module loader. -/
structure Session where
  account_count : Nat := 1
  load_module : String → Nat → ModuleBase := fun _ _ => { }

/-- `utils/models.py` `MediaIdentification`. -/
structure MediaIdentification where
  media_type : DownloadTypeEnum
  media_id : String
  original_url : String := ""

/-- `core.py` `_find_next_account`. -/
def find_next_account (current total : Nat) : Option Nat :=
  if current + 1 < total then some (current + 1) else none

/-- The body of the `try` block of `core.py` `_queue_media_item`: dispatch on
the media type to the matching `queue_*` entry point (resolving the custom
playlist download module first). -/
def attemptQueue (sess : Session) (d : Downloader) (module_name : String)
    (media : MediaIdentification) (separate_download_module : String)
    (st : DownloaderState) (module : ModuleBase) :
    DownloaderState × Except PyExc Unit :=
  let custom : Option String × Option ModuleBase :=
    if separate_download_module ≠ "default" ∧ separate_download_module ≠ module_name ∧
        media.media_type = DownloadTypeEnum.playlist then
      (some separate_download_module, some (sess.load_module separate_download_module 0))
    else (none, none)
  match media.media_type with
  | DownloadTypeEnum.album =>
    let r := d.queue_album st media.media_id module_name module
      media.original_url "" "" none none
    (r.1, r.2.map fun _ => ())
  | DownloadTypeEnum.track =>
    let r := d.queue_track st media.media_id module_name module
      media.original_url none
    (r.1, r.2.map fun _ => ())
  | DownloadTypeEnum.playlist =>
    let r := d.queue_playlist st media.media_id module_name module
      media.original_url custom.1 custom.2
    (r.1, r.2.map fun _ => ())
  | DownloadTypeEnum.artist =>
    let r := d.queue_artist st media.media_id module_name module
      media.original_url
    (r.1, r.2.map fun _ => ())

/-- The recursion of `core.py` `_queue_media_item`, made structural on a
fuel argument so that it reduces in the kernel: the fuel only bounds the
recursion depth and is initialised to `sess.account_count`, which the retry
guard `account_index + 1 < account_count` (the inlined `_find_next_account`,
see `find_next_account_spec`) keeps from ever running out. -/
def queue_media_item_go (sess : Session) (d : Downloader) (module_name : String)
    (media : MediaIdentification) (separate_download_module : String) :
    Nat → DownloaderState → ModuleBase → Nat → DownloaderState × Except PyExc Unit
  | fuel, st, module, account_index =>
    match attemptQueue sess d module_name media separate_download_module st module with
    | (st', Except.ok u) => (st', Except.ok u)
    | (st', Except.error e) =>
      if e.isRegionRestricted then
        if account_index + 1 < sess.account_count then
          match fuel with
          | 0 => (st', Except.error e)
          | fuel' + 1 =>
            queue_media_item_go sess d module_name media separate_download_module
              fuel' st' (sess.load_module module_name (account_index + 1))
              (account_index + 1)
        else (st', Except.error e)
      else (st', Except.error e)

/-- `core.py` `_queue_media_item`: attempts the enqueue; a
`RegionRestrictedError` is retried with the next account's module instance,
up to the configured account count.  Any other exception, and exhaustion of
accounts, re-raise.  Exceptions keep the partially-mutated state, as the
queue is shared and mutated in place. -/
def queue_media_item (sess : Session) (d : Downloader) (module_name : String)
    (media : MediaIdentification) (separate_download_module : String)
    (st : DownloaderState) (module : ModuleBase) (account_index : Nat) :
    DownloaderState × Except PyExc Unit :=
  queue_media_item_go sess d module_name media separate_download_module
    sess.account_count st module account_index

/-- Modelled from the spec (refinement reference): "a track/album/playlist/
artist enqueue that raises a region-restricted condition against account
index N is retried against account N+1, N+2, … up to the backend's
configured account count; exhausting all accounts re-raises the error to the
caller" — sequential attempts over increasing account indices, stopping at
the first success or first non-region-restricted error, re-raising the last
error unchanged on exhaustion. -/
def spec_region_failover
    (attempt : Nat → DownloaderState → DownloaderState × Except PyExc Unit)
    (account_count : Nat) (st : DownloaderState) (n : Nat) :
    DownloaderState × Except PyExc Unit :=
  match attempt n st with
  | (st', Except.ok u) => (st', Except.ok u)
  | (st', Except.error e) =>
    if e.isRegionRestricted then
      if h : n + 1 < account_count then
        spec_region_failover attempt account_count st' (n + 1)
      else (st', Except.error e)
    else (st', Except.error e)
termination_by account_count - n
decreasing_by omega

/-- tenacity `retry_if_exception_type((aiohttp.ClientError, TimeoutError,
OSError))` — the retriable class of `Downloader._download_track`'s retry
decorator.  (The exception model is a flat set of leaves, so the isinstance
check against the tuple is a plain case split.) -/
def pipelineRetriable : PyExc → Bool
  | PyExc.clientError _ => true
  | PyExc.timeoutError _ => true
  | PyExc.osError _ => true
  | _ => false

/-- tenacity `retry_if_exception_type((aiohttp.ClientError, TimeoutError))` —
the retriable class of `_download_with_retry` (`utils/utils.py`). -/
def streamRetriable : PyExc → Bool
  | PyExc.clientError _ => true
  | PyExc.timeoutError _ => true
  | _ => false

/-- tenacity `wait_exponential(multiplier, min, max)`: the sleep after the
1-based attempt `attemptNumber`, i.e. `multiplier * 2^(attemptNumber - 1)`
clamped into `[lo, hi]`. -/
def wait_exponential (multiplier lo hi : ℚ) (attemptNumber : Nat) : ℚ :=
  max lo (min (multiplier * 2 ^ (attemptNumber - 1)) hi)

/-- tenacity `retry(stop=stop_after_attempt(...), reraise=True)` around a
fallible call: `f k` is the outcome of the `k`-th call (1-based), `n` the
current attempt number and the second argument the remaining attempt budget.
A retriable error is retried while budget remains; `reraise=True` returns
the exception of the final attempt unchanged. -/
def tenacityRetry {α : Type} (retriable : PyExc → Bool)
    (f : Nat → Except PyExc α) : Nat → Nat → Except PyExc α
  | _, 0 => f 1
  | n, 1 => f n
  | n, remaining + 2 =>
    match f n with
    | Except.ok a => Except.ok a
    | Except.error e =>
      if retriable e then tenacityRetry retriable f (n + 1) (remaining + 1)
      else Except.error e

/-- The `@retry` decorator on `Downloader._download_track`:
`stop_after_attempt(3)`, retrying client errors / timeouts / OS errors,
`wait_exponential(multiplier=1, min=2, max=30)`, `reraise=True`. -/
def download_track_with_retry {α : Type} (f : Nat → Except PyExc α) : Except PyExc α :=
  tenacityRetry pipelineRetriable f 1 3

/-- The backoff schedule of `Downloader._download_track`'s decorator. -/
def download_track_wait (attemptNumber : Nat) : ℚ :=
  wait_exponential 1 2 30 attemptNumber

/-- The `@retry` decorator on `_download_with_retry` (raw byte streaming):
`stop_after_attempt(10)`, retrying client errors / timeouts,
`wait_exponential(multiplier=0.4, min=0.4, max=60)`, `reraise=True`. -/
def download_with_retry {α : Type} (f : Nat → Except PyExc α) : Except PyExc α :=
  tenacityRetry streamRetriable f 1 10

/-- The backoff schedule of `_download_with_retry`'s decorator. -/
def download_stream_wait (attemptNumber : Nat) : ℚ :=
  wait_exponential (2 / 5) (2 / 5) 60 attemptNumber

/-- `Downloader._download_track_task`: the pipeline boundary, with the inner
pipeline call (`self._download_track(task)`, already wrapped in its retry
decorator) abstracted as its outcome `result` — a
`(track_location, final_status)` pair or a raised exception.  Returns the
queue state, the emitted events, and the exception re-raised out of the
boundary, if any.  The semaphore acquire/release brackets the body and does
not touch the bookkeeping modelled here. -/
def download_track_task_boundary (abort_download_when_single_failed : Bool)
    (q : DownloadQueue) (task : TrackTask)
    (result : Except PyExc (Option String × ProgressStatus)) :
    DownloadQueue × List QueueEvent × Option PyExc :=
  let track_id := task.track_id
  let r0 := q.update_progress track_id none none (some "获取曲目信息...")
  match result with
  | Except.ok r =>
    let final_status := r.2
    let r1 := r0.1.update_progress track_id (some final_status) (some 1)
        (some (if final_status = ProgressStatus.completed then "下载完成" else "已跳过"))
    let r2 := r1.1.mark_track_complete track_id final_status
    let extEvents :=
      match r2.1.get_job task.job_id with
      | none => []
      | some job =>
        match dget job.track_infos track_id with
        | none => []
        | some _ => [QueueEvent.extensionsTrackComplete task.job_id track_id]
    (r2.1, r0.2 ++ r1.2 ++ r2.2 ++ extEvents, none)
  | Except.error e =>
    let r1 := r0.1.update_progress track_id (some ProgressStatus.failed) none
        (some e.message)
    let r2 := r1.1.mark_track_complete track_id ProgressStatus.failed
    (r2.1, r0.2 ++ r1.2 ++ r2.2,
      if abort_download_when_single_failed then some e else none)

/-- A backend instance whose metadata calls all return "not found"; used to
build concrete queue scenarios, where the task's module contents are
irrelevant. -/
def dummyModule : ModuleBase := { }

/-- A minimal well-formed task for queue scenarios. -/
def mkTask (tid jid : String) : TrackTask :=
  { track_id := tid, job_id := jid, module_name := "svc", module := dummyModule }

/-- Scenario: one job, one track, marked COMPLETED and then FAILED — the
bookkeeping double-buckets the track and re-fires the completion callback. -/
def opsConflict : List QueueOp :=
  [QueueOp.createJob "j" "url" MediaType.TRACK "t" "svc" "" "" "" "",
   QueueOp.addTrack "j" (mkTask "t" "j"),
   QueueOp.markTrackComplete "t" ProgressStatus.completed,
   QueueOp.markTrackComplete "t" ProgressStatus.failed]

/-- Scenario: one job, one track, marked COMPLETED twice (the "idempotent"
repeat). -/
def opsRepeat : List QueueOp :=
  [QueueOp.createJob "j" "url" MediaType.TRACK "t" "svc" "" "" "" "",
   QueueOp.addTrack "j" (mkTask "t" "j"),
   QueueOp.markTrackComplete "t" ProgressStatus.completed,
   QueueOp.markTrackComplete "t" ProgressStatus.completed]

/-- Scenario: one job, one track, marked COMPLETED and then SKIPPED; the
progress ratio of the resulting (finished, failure-free) job is 2. -/
def opsOverCount : List QueueOp :=
  [QueueOp.createJob "j" "url" MediaType.TRACK "t" "svc" "" "" "" "",
   QueueOp.addTrack "j" (mkTask "t" "j"),
   QueueOp.markTrackComplete "t" ProgressStatus.completed,
   QueueOp.markTrackComplete "t" ProgressStatus.skipped]

/-- Scenario: the same track id added twice to one job, then marked with two
different statuses — the duplicated job nevertheless finishes. -/
def opsDoubleAdd : List QueueOp :=
  [QueueOp.createJob "j" "url" MediaType.TRACK "t" "svc" "" "" "" "",
   QueueOp.addTrack "j" (mkTask "t" "j"),
   QueueOp.addTrack "j" (mkTask "t" "j"),
   QueueOp.markTrackComplete "t" ProgressStatus.completed,
   QueueOp.markTrackComplete "t" ProgressStatus.failed]

/-- The population phase of the two-phase scenario: one job, one track. -/
def popPhase : List QueueOp :=
  [QueueOp.createJob "j" "url" MediaType.TRACK "t" "svc" "" "" "" "",
   QueueOp.addTrack "j" (mkTask "t" "j")]

/-- A processing phase marking the single track COMPLETED once. -/
def markOnce : List QueueOp :=
  [QueueOp.markTrackComplete "t" ProgressStatus.completed]

/-- A processing phase marking the single track SKIPPED once. -/
def markOnceSkipped : List QueueOp :=
  [QueueOp.markTrackComplete "t" ProgressStatus.skipped]

/-- The job record produced by `popPhase`. -/
def popJob : DownloadJob :=
  { job_id := "j", original_url := "url", media_id := "t", module_name := "svc",
    track_ids := ["t"] }

/-- Backend stub for the failover scenario: the artist `A` has two albums;
`al0`'s metadata resolves for every account, `al1` is region-restricted for
account 0 and resolves for account 1. -/
def failoverModule (account : Nat) : ModuleBase :=
  { account_index := account
    get_album_info := fun album_id _ =>
      if album_id = "al0" then
        Except.ok (some { name := "Album0", artist := "Art", tracks := ["t0"] })
      else if account = 0 then
        Except.error (PyExc.regionRestricted "album al1 is region restricted")
      else
        Except.ok (some { name := "Album1", artist := "Art", tracks := ["t1"] })
    get_artist_info := fun _ _ =>
      Except.ok (some { name := "Art", albums := ["al0", "al1"], tracks := [] }) }

/-- Session with two configured accounts for the failover scenario. -/
def failoverSession : Session :=
  { account_count := 2, load_module := fun _ i => failoverModule i }

/-- The artist request of the failover scenario. -/
def failoverMedia : MediaIdentification :=
  { media_type := DownloadTypeEnum.artist, media_id := "A", original_url := "url" }

/-- Running the failover scenario from an empty queue, starting at account
0. -/
def failoverRun : DownloaderState × Except PyExc Unit :=
  queue_media_item failoverSession { } "svc" failoverMedia "default"
    { } (failoverModule 0) 0

/-- The union of a job's three completion sets. -/
def jobUnion (j : DownloadJob) : Finset String :=
  j.completed_tracks ∪ j.failed_tracks ∪ j.skipped_tracks

/-- The two spec invariants on a job's completion sets:
`completed ∪ failed ∪ skipped ⊆ track_ids` and pairwise disjointness. -/
def jobSetsSubset (j : DownloadJob) : Prop :=
  jobUnion j ⊆ j.track_ids.toFinset

def jobSetsDisjoint (j : DownloadJob) : Prop :=
  j.completed_tracks ∩ j.failed_tracks = ∅ ∧
    j.completed_tracks ∩ j.skipped_tracks = ∅ ∧
    j.failed_tracks ∩ j.skipped_tracks = ∅

/-- The C2 invariant, for every job in the queue. -/
def queueSetsInvariant (q : DownloadQueue) : Prop :=
  ∀ jid j, dget q.jobs jid = some j → jobSetsSubset j ∧ jobSetsDisjoint j

/-- Registry consistency: every entry of the task registry is keyed by its
task's track id, and when the task's job exists, the track id is recorded in
that job's track-id list.  (`add_track` establishes this whenever it is
called with `job_id = task.job_id`.) -/
def tasksRegisteredOk (q : DownloadQueue) : Prop :=
  ∀ tid task, dget q.track_tasks tid = some task →
    tid = task.track_id ∧
      ∃ j, dget q.jobs task.job_id = some j ∧ tid ∈ j.track_ids

/-- The two completion sets a bucket status does NOT insert into. -/
def otherBuckets (j : DownloadJob) : ProgressStatus → Finset String
  | ProgressStatus.completed => j.failed_tracks ∪ j.skipped_tracks
  | ProgressStatus.failed => j.completed_tracks ∪ j.skipped_tracks
  | ProgressStatus.skipped => j.completed_tracks ∪ j.failed_tracks
  | _ => ∅

/-- Compatibility of the pending marks with the current state: no pending
bucket-mark targets a track id already sitting in a different bucket of some
job.  (Holds initially — all buckets empty — and is preserved along
status-consistent runs.) -/
def marksCompat (q : DownloadQueue) (ops : List QueueOp) : Prop :=
  ∀ tid s, QueueOp.markTrackComplete tid s ∈ ops → bucketStatus s = true →
    ∀ jid j, dget q.jobs jid = some j → tid ∉ otherBuckets j s

/-- Every track id already sitting in some bucket has no pending mark left.
(Holds initially — all buckets empty — and is preserved along runs whose
marks are pairwise distinct.) -/
def bucketsFromPast (q : DownloadQueue) (ops : List QueueOp) : Prop :=
  ∀ jid j tid, dget q.jobs jid = some j → tid ∈ jobUnion j →
    (markTids ops).count tid = 0

instance : DecidableEq (Except PyExc Unit) := fun a b =>
  match a, b with
  | Except.ok x, Except.ok y => Decidable.isTrue (by cases x; cases y; rfl)
  | Except.error e, Except.error f =>
    if h : e = f then Decidable.isTrue (by rw [h]) else Decidable.isFalse (by simp [h])
  | Except.ok _, Except.error _ => Decidable.isFalse (by simp)
  | Except.error _, Except.ok _ => Decidable.isFalse (by simp)

/-- The set update `mark_track_complete` performs on the looked-up job
before the finished check (a proof-side restatement of its if/elif chain,
see `mark_track_complete_eq`). -/
def bucketed (job : DownloadJob) (track_id : String) : ProgressStatus → DownloadJob
  | ProgressStatus.completed =>
    { job with completed_tracks := insert track_id job.completed_tracks }
  | ProgressStatus.failed =>
    { job with failed_tracks := insert track_id job.failed_tracks }
  | ProgressStatus.skipped =>
    { job with skipped_tracks := insert track_id job.skipped_tracks }
  | _ => job

/-- The terminal status `mark_track_complete` assigns to a finished job:
PARTIAL when the failed set is non-empty, COMPLETED otherwise. -/
def terminalOf (j : DownloadJob) : JobStatus :=
  if j.failed_tracks ≠ ∅ then JobStatus.partialDone else JobStatus.completed

/-- Whether a queue call is a `mark_track_complete`. -/
def isMarkOp : QueueOp → Bool
  | QueueOp.markTrackComplete _ _ => true
  | _ => false

/-- A population-phase call sequence: only `create_job` / `add_track`. -/
def populationOnly (ops : List QueueOp) : Prop :=
  ∀ op ∈ ops, isMarkOp op = false

/-- A processing-phase call sequence: only `mark_track_complete`. -/
def marksOnly (ops : List QueueOp) : Prop :=
  ∀ op ∈ ops, isMarkOp op = true

/-- All jobs have empty completion sets (true throughout population). -/
def bucketsEmpty (q : DownloadQueue) : Prop :=
  ∀ jid j, dget q.jobs jid = some j →
    j.completed_tracks = ∅ ∧ j.failed_tracks = ∅ ∧ j.skipped_tracks = ∅

/-
Theorems.  Helper lemmas first, then per-claim theorems (named `cN_*`), their
counterexamples and witnesses.
-/

theorem dget_dinsert {α : Type} (l : List (String × α)) (key key' : String) (val : α) :
    dget (dinsert key val l) key' = if key' = key then some val else dget l key' := by
  induction l with
  | nil => by_cases h : key' = key <;> simp [dinsert, dget, h]
  | cons kv rest ih =>
    obtain ⟨k, v⟩ := kv
    by_cases hk : k = key
    · subst hk
      by_cases h : key' = k <;> simp [dinsert, dget, h]
    · by_cases h : key' = k
      · subst h
        simp [dinsert, dget, hk, Ne.symm hk]
      · simp [dinsert, dget, hk, h, ih]

theorem dget_dinsert_self {α : Type} (l : List (String × α)) (key : String) (val : α) :
    dget (dinsert key val l) key = some val := by
  simp [dget_dinsert]

theorem dget_dinsert_ne {α : Type} (l : List (String × α)) (key key' : String) (val : α)
    (h : key' ≠ key) : dget (dinsert key val l) key' = dget l key' := by
  simp [dget_dinsert, h]

theorem update_progress_not_downloading (q : DownloadQueue) (tid : String)
    (s : Option ProgressStatus) (p : Option ℚ) (m : Option String)
    (hs : s ≠ some ProgressStatus.downloading) :
    q.update_progress tid s p m = (q, [QueueEvent.progressUpdated tid s p m]) := by
  unfold DownloadQueue.update_progress
  cases h : dget q.track_tasks tid with
  | none => rfl
  | some task => simp [hs]

/-- C9: `mark_track_complete` for a track id with no registered task, or
whose task's job id is unknown, returns without raising and leaves the whole
queue state unchanged — no set mutation, no status change, no callback
invocation (by contrast `add_track` on an unknown job raises, claim C8). -/
theorem c9_mark_track_complete_unknown_noop :
    ∀ (q : DownloadQueue) (tid : String) (s : ProgressStatus),
      (dget q.track_tasks tid = none → q.mark_track_complete tid s = (q, [])) ∧
      (∀ task, dget q.track_tasks tid = some task →
        dget q.jobs task.job_id = none → q.mark_track_complete tid s = (q, [])) := by
  intro q tid s
  constructor
  · intro h
    unfold DownloadQueue.mark_track_complete
    rw [h]
  · intro task htask hjob
    simp only [DownloadQueue.mark_track_complete, htask, hjob]

theorem c9_mark_track_complete_unknown_noop_witness :
    (emptyQueue.mark_track_complete "ghost" ProgressStatus.completed = (emptyQueue, [])) ∧
      ((runOps emptyQueue opsConflict).1.mark_track_complete "ghost"
          ProgressStatus.completed = ((runOps emptyQueue opsConflict).1, [])) := by
  constructor
  · exact (c9_mark_track_complete_unknown_noop emptyQueue "ghost"
      ProgressStatus.completed).1 rfl
  · exact (c9_mark_track_complete_unknown_noop (runOps emptyQueue opsConflict).1 "ghost"
      ProgressStatus.completed).1 rfl

/-- C8: `add_track` with an unknown job id raises a `KeyError` and registers
nothing (the state the caller still holds is unchanged); with a known job id
it appends the task's track id to that job's track-id list and registers the
task in the task registry. -/
theorem c8_add_track_contract :
    ∀ (q : DownloadQueue) (jid : String) (task : TrackTask),
      (dget q.jobs jid = none →
        q.add_track jid task =
          Except.error (PyExc.keyError ("Job " ++ jid ++ " not found"))) ∧
      (∀ job, dget q.jobs jid = some job →
        q.add_track jid task =
          Except.ok
            ({ q with
                jobs := dinsert jid { job with track_ids := job.track_ids ++ [task.track_id] } q.jobs
                track_tasks := dinsert task.track_id task q.track_tasks },
              [QueueEvent.progressTaskCreated task.track_id]) ∧
        ∀ q' evs, q.add_track jid task = Except.ok (q', evs) →
          dget q'.jobs jid =
              some { job with track_ids := job.track_ids ++ [task.track_id] } ∧
            dget q'.track_tasks task.track_id = some task) := by
  intro q jid task
  constructor
  · intro h
    unfold DownloadQueue.add_track
    rw [h]
  · intro job hjob
    constructor
    · unfold DownloadQueue.add_track
      rw [hjob]
    · intro q' evs hok
      unfold DownloadQueue.add_track at hok
      rw [hjob] at hok
      simp only [Except.ok.injEq, Prod.mk.injEq] at hok
      obtain ⟨hq, _⟩ := hok
      subst hq
      exact ⟨dget_dinsert_self _ _ _, dget_dinsert_self _ _ _⟩

theorem c8_add_track_contract_witness :
    (emptyQueue.add_track "nope" (mkTask "t" "nope") =
        Except.error (PyExc.keyError "Job nope not found")) ∧
      ∃ q' evs,
        (emptyQueue.create_job "j" "url" MediaType.TRACK "t" "svc" "" "" "" "" 0).1.add_track
            "j" (mkTask "t" "j") = Except.ok (q', evs) ∧
          dget q'.jobs "j" =
              some { job_id := "j", original_url := "url", media_type := MediaType.TRACK,
                     media_id := "t", module_name := "svc", track_ids := ["t"] } ∧
            dget q'.track_tasks "t" = some (mkTask "t" "j") := by
  constructor
  · exact (c8_add_track_contract emptyQueue "nope" (mkTask "t" "nope")).1 rfl
  · have h := (c8_add_track_contract
      (emptyQueue.create_job "j" "url" MediaType.TRACK "t" "svc" "" "" "" "" 0).1
      "j" (mkTask "t" "j")).2
      { job_id := "j", original_url := "url", media_type := MediaType.TRACK,
        media_id := "t", module_name := "svc" } rfl
    exact ⟨_, _, h.1, (h.2 _ _ h.1).1, (h.2 _ _ h.1).2⟩

/-- C5: whenever the per-track pipeline raises, the boundary in
`_download_track_task` catches the exception, reports the track FAILED with
the exception's message through a progress update, marks the track complete
as FAILED, and re-raises the exception precisely when the global
abort-on-single-failure flag is set (otherwise nothing propagates and
sibling tracks keep running). -/
theorem c5_pipeline_failure_boundary :
    ∀ (abort : Bool) (q : DownloadQueue) (task : TrackTask) (e : PyExc),
      download_track_task_boundary abort q task (Except.error e) =
        ((q.mark_track_complete task.track_id ProgressStatus.failed).1,
          [QueueEvent.progressUpdated task.track_id none none (some "获取曲目信息..."),
            QueueEvent.progressUpdated task.track_id (some ProgressStatus.failed) none
              (some e.message)] ++
            (q.mark_track_complete task.track_id ProgressStatus.failed).2,
          if abort then some e else none) := by
  intro abort q task e
  simp [download_track_task_boundary, update_progress_not_downloading]

theorem c5_pipeline_failure_boundary_witness :
    download_track_task_boundary true emptyQueue (mkTask "t" "j")
        (Except.error (PyExc.invalidTrack "Track info is None")) =
      (emptyQueue,
        [QueueEvent.progressUpdated "t" none none (some "获取曲目信息..."),
          QueueEvent.progressUpdated "t" (some ProgressStatus.failed) none
            (some "Track info is None")],
        some (PyExc.invalidTrack "Track info is None")) := by
  have h := c5_pipeline_failure_boundary true emptyQueue (mkTask "t" "j")
    (PyExc.invalidTrack "Track info is None")
  simpa using h

/-- C6 counterexample: the claim "the progress ratio is exactly 1.0 for a
finished Job with no failed tracks" fails.  Marking the single track of a
job COMPLETED and then SKIPPED yields the reachable progress record
(1, 0, 1, 1): finished with no failures, yet its ratio is 2, not 1. -/
theorem c6_progress_ratio_counterexample :
    (runOps emptyQueue opsOverCount).1.get_job_progress "j" =
        { completed := 1, failed := 0, skipped := 1, total := 1 } ∧
      JobProgress.is_finished { completed := 1, failed := 0, skipped := 1, total := 1 } = true ∧
      JobProgress.progress { completed := 1, failed := 0, skipped := 1, total := 1 } ≠ 1 := by
  refine ⟨by decide, by decide, ?_⟩
  norm_num [JobProgress.progress, JobProgress.finished]

/-- C6 (amended): `get_job_progress` on an unknown job id returns the zeroed
record and never raises; the progress ratio is exactly 0 when `total = 0`,
and exactly 1 whenever the finished count equals a positive total — in
particular for a job whose tracks were each marked exactly once with none
failed.  (When double-status marks inflate `finished` beyond `total`, the
ratio exceeds 1, which is what the counterexample exhibits.) -/
theorem c6_job_progress_contract :
    ∀ (q : DownloadQueue) (jid : String) (p : JobProgress),
      (dget q.jobs jid = none →
        q.get_job_progress jid = { completed := 0, failed := 0, skipped := 0, total := 0 }) ∧
      (p.total = 0 → p.progress = 0) ∧
      (p.finished = p.total → 0 < p.total → p.progress = 1) := by
  intro q jid p
  refine ⟨?_, ?_, ?_⟩
  · intro h
    unfold DownloadQueue.get_job_progress
    rw [h]
  · intro h
    simp [JobProgress.progress, h]
  · intro hfin htot
    have htotne : p.total ≠ 0 := by omega
    simp only [JobProgress.progress, htotne, if_false]
    rw [hfin]
    exact div_self (by exact_mod_cast htotne)

theorem c6_job_progress_contract_witness :
    (emptyQueue.get_job_progress "ghost" =
        { completed := 0, failed := 0, skipped := 0, total := 0 }) ∧
      JobProgress.progress { completed := 0, failed := 0, skipped := 0, total := 0 } = 0 ∧
      JobProgress.progress { completed := 1, failed := 0, skipped := 1, total := 2 } = 1 := by
  refine ⟨?_, ?_, ?_⟩
  · exact (c6_job_progress_contract emptyQueue "ghost"
      { completed := 0, failed := 0, skipped := 0, total := 0 }).1 rfl
  · exact (c6_job_progress_contract emptyQueue "ghost"
      { completed := 0, failed := 0, skipped := 0, total := 0 }).2.1 rfl
  · exact (c6_job_progress_contract emptyQueue "ghost"
      { completed := 1, failed := 0, skipped := 1, total := 2 }).2.2 rfl (by decide)

theorem tenacityRetry_spec {α : Type} (retriable : PyExc → Bool)
    (f : Nat → Except PyExc α) :
    ∀ budget, 1 ≤ budget → ∀ n,
      ∃ k, n ≤ k ∧ k ≤ n + budget - 1 ∧ tenacityRetry retriable f n budget = f k ∧
        ∀ j, n ≤ j → j < k → ∃ e, f j = Except.error e ∧ retriable e = true := by
  intro budget
  induction budget with
  | zero => intro h; exact absurd h (by omega)
  | succ b ih =>
    intro _ n
    cases b with
    | zero =>
      exact ⟨n, le_refl n, by omega, rfl, fun j hj hjk => absurd hjk (by omega)⟩
    | succ m =>
      cases hf : f n with
      | ok a =>
        refine ⟨n, le_refl n, by omega, ?_, fun j hj hjk => absurd hjk (by omega)⟩
        simp [tenacityRetry, hf]
      | error e =>
        by_cases hr : retriable e = true
        · obtain ⟨k, hk1, hk2, hk3, hk4⟩ := ih (by omega) (n + 1)
          refine ⟨k, by omega, by omega, ?_, ?_⟩
          · rw [← hk3]
            simp [tenacityRetry, hf, hr]
          · intro j hj hjk
            rcases eq_or_lt_of_le hj with hje | hjlt
            · exact ⟨e, by rw [← hje]; exact hf, hr⟩
            · exact hk4 j (by omega) hjk
        · refine ⟨n, le_refl n, by omega, ?_, fun j hj hjk => absurd hjk (by omega)⟩
          simp [tenacityRetry, hf, hr]

theorem wait_exponential_le (multiplier lo hi : ℚ) (hlohi : lo ≤ hi) (n : Nat) :
    wait_exponential multiplier lo hi n ≤ hi := by
  unfold wait_exponential
  exact max_le hlohi (min_le_right _ _)

theorem wait_exponential_double (multiplier lo hi : ℚ) (hlo : 0 ≤ lo) (hlohi : lo ≤ hi)
    (n : Nat) (h1 : 1 ≤ n) (hfloor : lo ≤ multiplier * 2 ^ (n - 1)) :
    wait_exponential multiplier lo hi (n + 1) =
      min (2 * wait_exponential multiplier lo hi n) hi := by
  have hpow : multiplier * 2 ^ (n + 1 - 1) = 2 * (multiplier * 2 ^ (n - 1)) := by
    have hn : n + 1 - 1 = (n - 1) + 1 := by omega
    rw [hn, pow_succ]
    ring
  have hhi0 : (0 : ℚ) ≤ hi := le_trans hlo hlohi
  unfold wait_exponential
  rw [hpow]
  have hwn : max lo (min (multiplier * 2 ^ (n - 1)) hi) = min (multiplier * 2 ^ (n - 1)) hi :=
    max_eq_right (le_min hfloor hlohi)
  rw [hwn]
  have hdistrib : 2 * min (multiplier * 2 ^ (n - 1)) hi =
      min (2 * (multiplier * 2 ^ (n - 1))) (2 * hi) := by
    rcases le_total (multiplier * 2 ^ (n - 1)) hi with hle | hle
    · rw [min_eq_left hle, min_eq_left (by linarith)]
    · rw [min_eq_right hle, min_eq_right (by linarith)]
  rw [hdistrib, min_assoc, min_eq_right (by linarith : hi ≤ 2 * hi)]
  exact max_eq_right
    (le_min (le_trans hfloor (by nlinarith [pow_pos (show (0:ℚ) < 2 by norm_num) (n-1)]))
      hlohi)

/-- C7: the retry policy.  The per-track pipeline decorator retries only
client errors, timeouts and OS errors; the raw byte-streaming decorator
retries only client errors and timeouts; protocol-level rejections (region
restrictions, invalid input/track conditions, …) are never retried and
propagate after one attempt.  The pipeline makes at most 3 attempts and the
byte streaming at most 10; every retried attempt had failed with a transient
error, and the returned outcome — including the final failure — is the
outcome of some attempt, unchanged.  The backoff starts at a small fixed
delay (2 s for the pipeline, 0.4 s for streaming), doubles (from the point
where the exponential leaves the floor), and is capped (30 s / 60 s). -/
theorem c7_retry_policy (α : Type) (f g : Nat → Except PyExc α) :
    (∃ k, 1 ≤ k ∧ k ≤ 3 ∧ download_track_with_retry f = f k ∧
        ∀ j, 1 ≤ j → j < k → ∃ e, f j = Except.error e ∧ pipelineRetriable e = true) ∧
      (∀ e, f 1 = Except.error e → pipelineRetriable e = false →
        download_track_with_retry f = f 1) ∧
      (∃ k, 1 ≤ k ∧ k ≤ 10 ∧ download_with_retry g = g k ∧
        ∀ j, 1 ≤ j → j < k → ∃ e, g j = Except.error e ∧ streamRetriable e = true) ∧
      (∀ e, g 1 = Except.error e → streamRetriable e = false →
        download_with_retry g = g 1) ∧
      (∀ e, pipelineRetriable e = true ↔
        ((∃ m, e = PyExc.clientError m) ∨ (∃ m, e = PyExc.timeoutError m) ∨
          (∃ m, e = PyExc.osError m))) ∧
      (∀ e, streamRetriable e = true ↔
        ((∃ m, e = PyExc.clientError m) ∨ (∃ m, e = PyExc.timeoutError m))) ∧
      download_track_wait 1 = 2 ∧ download_track_wait 2 = 2 ∧
      (∀ n, download_track_wait n ≤ 30) ∧
      (∀ n, 2 ≤ n → download_track_wait (n + 1) = min (2 * download_track_wait n) 30) ∧
      download_stream_wait 1 = 2 / 5 ∧
      (∀ n, download_stream_wait n ≤ 60) ∧
      (∀ n, 1 ≤ n → download_stream_wait (n + 1) = min (2 * download_stream_wait n) 60) := by
  refine ⟨?_, ?_, ?_, ?_, ?_, ?_, ?_, ?_, ?_, ?_, ?_, ?_, ?_⟩
  · obtain ⟨k, h1, h2, h3, h4⟩ := tenacityRetry_spec pipelineRetriable f 3 (by omega) 1
    exact ⟨k, h1, by omega, h3, h4⟩
  · intro e he hr
    simp [download_track_with_retry, tenacityRetry, he, hr]
  · obtain ⟨k, h1, h2, h3, h4⟩ := tenacityRetry_spec streamRetriable g 10 (by omega) 1
    exact ⟨k, h1, by omega, h3, h4⟩
  · intro e he hr
    simp [download_with_retry, tenacityRetry, he, hr]
  · intro e
    cases e <;> simp [pipelineRetriable]
  · intro e
    cases e <;> simp [streamRetriable]
  · norm_num [download_track_wait, wait_exponential]
  · norm_num [download_track_wait, wait_exponential]
  · intro n
    exact wait_exponential_le 1 2 30 (by norm_num) n
  · intro n hn
    apply wait_exponential_double 1 2 30 (by norm_num) (by norm_num) n (by omega)
    have hp : (2 : ℚ) ^ 1 ≤ 2 ^ (n - 1) := pow_le_pow_right₀ (by norm_num) (by omega)
    rw [pow_one] at hp
    linarith
  · norm_num [download_stream_wait, wait_exponential]
  · intro n
    exact wait_exponential_le (2 / 5) (2 / 5) 60 (by norm_num) n
  · intro n hn
    apply wait_exponential_double (2 / 5) (2 / 5) 60 (by norm_num) (by norm_num) n hn
    have hp : (2 : ℚ) ^ 0 ≤ 2 ^ (n - 1) := pow_le_pow_right₀ (by norm_num) (by omega)
    rw [pow_zero] at hp
    nlinarith

theorem c7_retry_policy_witness :
    (download_track_with_retry (fun _ => (Except.error (PyExc.regionRestricted "r") : Except PyExc Nat)) =
        Except.error (PyExc.regionRestricted "r")) ∧
      (download_with_retry (fun _ => (Except.error (PyExc.invalidTrack "bad") : Except PyExc Nat)) =
        Except.error (PyExc.invalidTrack "bad")) ∧
      download_track_wait 3 = min (2 * download_track_wait 2) 30 ∧
      download_stream_wait 2 = min (2 * download_stream_wait 1) 60 := by
  refine ⟨?_, ?_, ?_, ?_⟩
  · exact (c7_retry_policy Nat (fun _ => (Except.error (PyExc.regionRestricted "r") : Except PyExc Nat))
      (fun _ => Except.error (PyExc.other ""))).2.1 (PyExc.regionRestricted "r") rfl rfl
  · exact (c7_retry_policy Nat (fun _ => Except.error (PyExc.other ""))
      (fun _ => (Except.error (PyExc.invalidTrack "bad") : Except PyExc Nat))).2.2.2.1
      (PyExc.invalidTrack "bad") rfl rfl
  · exact (c7_retry_policy Nat (fun _ => Except.error (PyExc.other ""))
      (fun _ => Except.error (PyExc.other ""))).2.2.2.2.2.2.2.2.2.1 2 (by omega)
  · exact (c7_retry_policy Nat (fun _ => Except.error (PyExc.other ""))
      (fun _ => Except.error (PyExc.other ""))).2.2.2.2.2.2.2.2.2.2.2.2 1 (by omega)

theorem toFinset_card_lt_length {l : List String} (h : ¬ l.Nodup) :
    l.toFinset.card < l.length := by
  induction l with
  | nil => exact absurd List.nodup_nil h
  | cons a l ih =>
    rw [List.nodup_cons, not_and_or, not_not] at h
    rw [List.toFinset_cons, List.length_cons]
    rcases h with hmem | hdup
    · rw [Finset.card_insert_of_mem (List.mem_toFinset.mpr hmem)]
      exact Nat.lt_succ_of_le (List.toFinset_card_le l)
    · exact Nat.lt_succ_of_le (le_trans (Finset.card_insert_le _ _) (ih hdup))

theorem finished_union_card (j : DownloadJob) (hd : jobSetsDisjoint j) :
    j.finished_tracks = (jobUnion j).card := by
  obtain ⟨h1, h2, h3⟩ := hd
  have d1 : Disjoint j.completed_tracks j.failed_tracks :=
    Finset.disjoint_iff_inter_eq_empty.mpr h1
  have d2 : Disjoint (j.completed_tracks ∪ j.failed_tracks) j.skipped_tracks :=
    Finset.disjoint_union_left.mpr
      ⟨Finset.disjoint_iff_inter_eq_empty.mpr h2, Finset.disjoint_iff_inter_eq_empty.mpr h3⟩
  unfold DownloadJob.finished_tracks jobUnion
  rw [Finset.card_union_of_disjoint d2, Finset.card_union_of_disjoint d1]

theorem dup_job_never_finished (j : DownloadJob) (hdup : ¬ j.track_ids.Nodup)
    (hsub : jobSetsSubset j) (hd : jobSetsDisjoint j) : j.is_finished = false := by
  unfold DownloadJob.is_finished
  have hcard : j.finished_tracks = (jobUnion j).card := finished_union_card j hd
  have hle : (jobUnion j).card ≤ j.track_ids.toFinset.card :=
    Finset.card_le_card hsub
  have hlt : j.track_ids.toFinset.card < j.track_ids.length :=
    toFinset_card_lt_length hdup
  have : j.finished_tracks < j.total_tracks := by
    unfold DownloadJob.total_tracks
    omega
  simp only [decide_eq_false_iff_not, not_and_or]
  left
  omega

/-- C10 counterexample: the claim "such a Job can never satisfy
`is_finished` through `mark_track_complete` calls alone" fails — after
adding track `t` to job `j` twice (total 2), marking `t` COMPLETED and then
FAILED puts it in two different sets, so `finished = 2 ≥ 2` and the job is
finished. -/
theorem c10_duplicate_track_counterexample :
    ((runOps emptyQueue opsDoubleAdd).1.get_job "j").map
        (fun j => (j.track_ids, j.is_finished)) = some (["t", "t"], true) := by
  decide

/-- C10 (amended): `add_track` does not deduplicate — adding the same track
id twice to one job appends it to the job's track-id list both times (so
`total_tracks` counts it twice) while the single task-registry entry is
overwritten by the second task.  Since each completion set can contain the
id at most once, such a job can never satisfy `is_finished` while its sets
remain pairwise-disjoint subsets of its track ids (as they do when every
track is marked with at most one status); marking the duplicated id with two
different statuses, however, double-buckets it and can finish the job — the
counterexample. -/
theorem c10_add_track_no_dedup :
    ∀ (q : DownloadQueue) (jid : String) (task task2 : TrackTask) (job : DownloadJob),
      dget q.jobs jid = some job → task2.track_id = task.track_id →
      (∃ q1 evs1 q2 evs2,
        q.add_track jid task = Except.ok (q1, evs1) ∧
          q1.add_track jid task2 = Except.ok (q2, evs2) ∧
          dget q2.jobs jid =
            some { job with
                    track_ids := job.track_ids ++ [task.track_id] ++ [task2.track_id] } ∧
          dget q2.track_tasks task.track_id = some task2) ∧
      (∀ j : DownloadJob, ¬ j.track_ids.Nodup → jobSetsSubset j → jobSetsDisjoint j →
        j.is_finished = false) := by
  intro q jid task task2 job hjob hsame
  constructor
  · have h1 : q.add_track jid task =
        Except.ok
          ({ q with
              jobs := dinsert jid { job with track_ids := job.track_ids ++ [task.track_id] } q.jobs
              track_tasks := dinsert task.track_id task q.track_tasks },
            [QueueEvent.progressTaskCreated task.track_id]) := by
      unfold DownloadQueue.add_track
      rw [hjob]
    have hjob1 : dget (dinsert jid { job with track_ids := job.track_ids ++ [task.track_id] } q.jobs) jid =
        some { job with track_ids := job.track_ids ++ [task.track_id] } :=
      dget_dinsert_self _ _ _
    have h2 : DownloadQueue.add_track
        { q with
            jobs := dinsert jid { job with track_ids := job.track_ids ++ [task.track_id] } q.jobs
            track_tasks := dinsert task.track_id task q.track_tasks } jid task2 =
        Except.ok
          ({ q with
              jobs := dinsert jid
                { job with track_ids := job.track_ids ++ [task.track_id] ++ [task2.track_id] }
                (dinsert jid { job with track_ids := job.track_ids ++ [task.track_id] } q.jobs)
              track_tasks := dinsert task2.track_id task2
                (dinsert task.track_id task q.track_tasks) },
            [QueueEvent.progressTaskCreated task2.track_id]) := by
      unfold DownloadQueue.add_track
      rw [hjob1]
    refine ⟨_, _, _, _, h1, h2, ?_, ?_⟩
    · exact dget_dinsert_self _ _ _
    · rw [← hsame]
      exact dget_dinsert_self _ _ _
  · exact dup_job_never_finished

theorem c10_add_track_no_dedup_witness :
    ∃ q1 evs1 q2 evs2,
      (emptyQueue.create_job "j" "url" MediaType.TRACK "t" "svc" "" "" "" "" 0).1.add_track
          "j" (mkTask "t" "j") = Except.ok (q1, evs1) ∧
        q1.add_track "j" (mkTask "t" "j") = Except.ok (q2, evs2) ∧
        dget q2.jobs "j" =
          some { job_id := "j", original_url := "url", media_type := MediaType.TRACK,
                 media_id := "t", module_name := "svc", track_ids := ["t", "t"] } ∧
        dget q2.track_tasks "t" = some (mkTask "t" "j") ∧
        DownloadJob.is_finished
          { job_id := "j", track_ids := ["t", "t"],
            completed_tracks := {"t"}, failed_tracks := ∅, skipped_tracks := ∅ } = false := by
  have h := (c10_add_track_no_dedup
    (emptyQueue.create_job "j" "url" MediaType.TRACK "t" "svc" "" "" "" "" 0).1
    "j" (mkTask "t" "j") (mkTask "t" "j")
    { job_id := "j", original_url := "url", media_type := MediaType.TRACK,
      media_id := "t", module_name := "svc" } rfl rfl)
  obtain ⟨⟨q1, evs1, q2, evs2, h1, h2, h3, h4⟩, hgen⟩ := h
  refine ⟨q1, evs1, q2, evs2, h1, h2, h3, h4, ?_⟩
  exact hgen _ (by decide) (by unfold jobSetsSubset jobUnion; decide)
    (by unfold jobSetsDisjoint; decide)

/-- C1 counterexample: the callback is NOT invoked exactly once under
repeated `mark_track_complete` calls.  For a job with one track, marking
that track COMPLETED twice (the "idempotent bookkeeping" repeat the claim
includes) fires the job-completion callback at both calls: the set insert is
idempotent, but the finished check has no terminal guard and re-fires. -/
theorem c1_callback_exactly_once_counterexample :
    cbCount "j" (runOps emptyQueue opsRepeat).2 = 2 := by
  decide

/-- C2 counterexample: the three completion sets are NOT always pairwise
disjoint.  Marking the single track `t` of job `j` COMPLETED and then FAILED
(two calls with different status arguments, which the claim admits) leaves
`t` in both `completed_tracks` and `failed_tracks`. -/
theorem c2_disjointness_counterexample :
    ((runOps emptyQueue opsConflict).1.get_job "j").map
        (fun j => j.completed_tracks ∩ j.failed_tracks) = some {"t"} := by
  decide

/-- C4 counterexample: a job's status is NOT set to a terminal value exactly
once.  Marking the single track COMPLETED finishes the job and assigns
COMPLETED; a later mark of the same track as FAILED re-enters the finished
branch and re-assigns the terminal status — now PARTIAL. -/
theorem c4_terminal_once_counterexample :
    statusSetsFor "j" (runOps emptyQueue opsConflict).2 =
        [JobStatus.completed, JobStatus.partialDone] ∧
      ((runOps emptyQueue opsConflict).1.get_job "j").map (fun j => j.status) =
        some JobStatus.partialDone := by
  constructor
  · decide
  · decide

theorem find_next_account_spec (current total : Nat) :
    find_next_account current total =
      if current + 1 < total then some (current + 1) else none := rfl

theorem queue_media_item_go_eq_spec_failover (sess : Session) (d : Downloader)
    (mn : String) (media : MediaIdentification) (sdm : String) :
    ∀ fuel st n, sess.account_count - (n + 1) ≤ fuel →
      queue_media_item_go sess d mn media sdm fuel st (sess.load_module mn n) n =
        spec_region_failover
          (fun j st' => attemptQueue sess d mn media sdm st' (sess.load_module mn j))
          sess.account_count st n := by
  intro fuel
  induction fuel with
  | zero =>
    intro st n hle
    rw [queue_media_item_go, spec_region_failover]
    rcases hA : attemptQueue sess d mn media sdm st (sess.load_module mn n) with ⟨st', r⟩
    cases r with
    | ok u => simp [hA]
    | error e =>
      have hn : ¬ (n + 1 < sess.account_count) := by omega
      simp [hA, hn]
  | succ k ih =>
    intro st n hle
    rw [queue_media_item_go, spec_region_failover]
    rcases hA : attemptQueue sess d mn media sdm st (sess.load_module mn n) with ⟨st', r⟩
    cases r with
    | ok u => simp [hA]
    | error e =>
      by_cases hr : e.isRegionRestricted
      · by_cases hn : n + 1 < sess.account_count
        · simp only [hA, hr, hn, dif_pos, if_true]
          exact ih st' (n + 1) (by omega)
        · simp [hA, hr, hn]
      · simp [hA, hr]

theorem queue_media_item_eq_spec_failover (sess : Session) (d : Downloader)
    (mn : String) (media : MediaIdentification) (sdm : String) (st : DownloaderState)
    (n : Nat) :
    queue_media_item sess d mn media sdm st (sess.load_module mn n) n =
      spec_region_failover
        (fun j st' => attemptQueue sess d mn media sdm st' (sess.load_module mn j))
        sess.account_count st n :=
  queue_media_item_go_eq_spec_failover sess d mn media sdm sess.account_count st n
    (Nat.sub_le _ _)

/-- C3 counterexample: the failover does NOT reuse the same Job id across
retries.  With a backend whose artist discography fetch succeeds but whose
second album is region-restricted for account 0 and fine for account 1, the
single artist enqueue succeeds on retry — and the final queue holds TWO
jobs: `uuid-0` created by the failed account-0 attempt (still populated with
the first album's track) and the fresh `uuid-1` created by the account-1
retry.  The claim's "reusing the same Job id across retries" and "the
resulting Job … reference only account K" both fail at this input. -/
theorem c3_job_id_reuse_counterexample :
    failoverRun.2 = Except.ok () ∧
      failoverRun.1.queue.jobs.map Prod.fst = ["uuid-0", "uuid-1"] ∧
      ((failoverRun.1.queue.get_job "uuid-0").map fun j => j.track_ids) = some ["t0"] := by
  refine ⟨by decide, by decide, by decide⟩

/-- C3 (amended): the failover equals sequentially attempting accounts
N, N+1, … (each attempt re-running the enqueue from scratch on the shared
state), stopping at the first success or the first non-region-restricted
error, re-raising the last region error unchanged once `account_count` is
exhausted — `spec_region_failover` is the spec's words as a definition.  In
the concrete two-account artist scenario: the run succeeds via account 1;
each attempt that reached job creation generated a fresh uuid job id
(`uuid-0`, then `uuid-1`); the partially-populated job of the failed attempt
remains; and the Track Tasks registered by the successful attempt hold
account 1's module instance while their `account_index` field keeps its
default 0. -/
theorem c3_region_failover_amended :
    (∀ (sess : Session) (d : Downloader) (mn : String) (media : MediaIdentification)
        (sdm : String) (st : DownloaderState) (n : Nat),
      queue_media_item sess d mn media sdm st (sess.load_module mn n) n =
        spec_region_failover
          (fun j st' => attemptQueue sess d mn media sdm st' (sess.load_module mn j))
          sess.account_count st n) ∧
      failoverRun.2 = Except.ok () ∧
      failoverRun.1.queue.jobs.map Prod.fst = ["uuid-0", "uuid-1"] ∧
      ((failoverRun.1.queue.get_job "uuid-1").map fun j => j.track_ids) =
        some ["t0", "t1"] ∧
      ((failoverRun.1.queue.get_track_task "t0").map
          fun t => (t.job_id, t.module.account_index, t.account_index)) =
        some ("uuid-1", 1, 0) ∧
      ((failoverRun.1.queue.get_track_task "t1").map
          fun t => (t.job_id, t.module.account_index, t.account_index)) =
        some ("uuid-1", 1, 0) := by
  refine ⟨?_, by decide, by decide, by decide, by decide, by decide⟩
  intro sess d mn media sdm st n
  exact queue_media_item_eq_spec_failover sess d mn media sdm st n

theorem c3_region_failover_amended_witness :
    queue_media_item failoverSession { } "svc" failoverMedia "default"
        { } (failoverSession.load_module "svc" 0) 0 =
      spec_region_failover
        (fun j st' => attemptQueue failoverSession { } "svc" failoverMedia "default" st'
          (failoverSession.load_module "svc" j))
        failoverSession.account_count { } 0 :=
  c3_region_failover_amended.1 failoverSession { } "svc" failoverMedia "default" { } 0

theorem mark_track_complete_eq (q : DownloadQueue) (tid : String) (s : ProgressStatus)
    (task : TrackTask) (job : DownloadJob)
    (htask : dget q.track_tasks tid = some task)
    (hjob : dget q.jobs task.job_id = some job) :
    q.mark_track_complete tid s =
      if (bucketed job tid s).is_finished then
        ({ q with
            jobs := dinsert task.job_id
              { bucketed job tid s with status := terminalOf (bucketed job tid s) } q.jobs },
          QueueEvent.jobStatusSet task.job_id (terminalOf (bucketed job tid s)) ::
            (if q.has_on_job_complete then [QueueEvent.jobCompleteCallback task.job_id]
              else []))
      else
        ({ q with jobs := dinsert task.job_id (bucketed job tid s) q.jobs }, []) := by
  simp only [DownloadQueue.mark_track_complete, htask, hjob]
  cases s <;> simp [bucketed, terminalOf]

theorem bucketed_track_ids (job : DownloadJob) (tid : String) (s : ProgressStatus) :
    (bucketed job tid s).track_ids = job.track_ids := by
  cases s <;> rfl

theorem bucketed_track_infos (job : DownloadJob) (tid : String) (s : ProgressStatus) :
    (bucketed job tid s).track_infos = job.track_infos := by
  cases s <;> rfl

theorem bucketed_non_bucket (job : DownloadJob) (tid : String) (s : ProgressStatus)
    (h : bucketStatus s = false) : bucketed job tid s = job := by
  cases s <;> first
    | rfl
    | simp [bucketStatus] at h

theorem jobUnion_bucketed (job : DownloadJob) (tid : String) (s : ProgressStatus)
    (h : bucketStatus s = true) :
    jobUnion (bucketed job tid s) = insert tid (jobUnion job) := by
  cases s with
  | completed =>
    ext x
    simp [jobUnion, bucketed]
  | failed =>
    ext x
    simp [jobUnion, bucketed]
  | skipped =>
    ext x
    simp [jobUnion, bucketed]
  | pending => simp [bucketStatus] at h
  | downloading => simp [bucketStatus] at h

theorem bucketed_subset (job : DownloadJob) (tid : String) (s : ProgressStatus)
    (hsub : jobSetsSubset job) (hmem : tid ∈ job.track_ids) :
    jobSetsSubset (bucketed job tid s) := by
  cases hb : bucketStatus s with
  | false => rw [bucketed_non_bucket job tid s hb]; exact hsub
  | true =>
    unfold jobSetsSubset
    rw [jobUnion_bucketed job tid s hb, bucketed_track_ids]
    exact Finset.insert_subset (List.mem_toFinset.mpr hmem) hsub

theorem bucketed_disjoint (job : DownloadJob) (tid : String) (s : ProgressStatus)
    (hd : jobSetsDisjoint job) (hother : tid ∉ otherBuckets job s) :
    jobSetsDisjoint (bucketed job tid s) := by
  obtain ⟨h1, h2, h3⟩ := hd
  cases s with
  | completed =>
    simp only [otherBuckets, Finset.mem_union, not_or] at hother
    exact ⟨by rw [show (bucketed job tid ProgressStatus.completed).completed_tracks =
        insert tid job.completed_tracks from rfl,
        show (bucketed job tid ProgressStatus.completed).failed_tracks =
        job.failed_tracks from rfl, Finset.insert_inter_of_not_mem hother.1, h1],
      by rw [show (bucketed job tid ProgressStatus.completed).completed_tracks =
        insert tid job.completed_tracks from rfl,
        show (bucketed job tid ProgressStatus.completed).skipped_tracks =
        job.skipped_tracks from rfl, Finset.insert_inter_of_not_mem hother.2, h2],
      h3⟩
  | failed =>
    simp only [otherBuckets, Finset.mem_union, not_or] at hother
    refine ⟨?_, h2, ?_⟩
    · rw [show (bucketed job tid ProgressStatus.failed).failed_tracks =
        insert tid job.failed_tracks from rfl,
        show (bucketed job tid ProgressStatus.failed).completed_tracks =
        job.completed_tracks from rfl,
        Finset.inter_comm, Finset.insert_inter_of_not_mem hother.1, Finset.inter_comm, h1]
    · rw [show (bucketed job tid ProgressStatus.failed).failed_tracks =
        insert tid job.failed_tracks from rfl,
        show (bucketed job tid ProgressStatus.failed).skipped_tracks =
        job.skipped_tracks from rfl,
        Finset.insert_inter_of_not_mem hother.2, h3]
  | skipped =>
    simp only [otherBuckets, Finset.mem_union, not_or] at hother
    refine ⟨h1, ?_, ?_⟩
    · rw [show (bucketed job tid ProgressStatus.skipped).skipped_tracks =
        insert tid job.skipped_tracks from rfl,
        show (bucketed job tid ProgressStatus.skipped).completed_tracks =
        job.completed_tracks from rfl,
        Finset.inter_comm, Finset.insert_inter_of_not_mem hother.1, Finset.inter_comm, h2]
    · rw [show (bucketed job tid ProgressStatus.skipped).skipped_tracks =
        insert tid job.skipped_tracks from rfl,
        show (bucketed job tid ProgressStatus.skipped).failed_tracks =
        job.failed_tracks from rfl,
        Finset.inter_comm, Finset.insert_inter_of_not_mem hother.2, Finset.inter_comm, h3]
  | pending => exact ⟨h1, h2, h3⟩
  | downloading => exact ⟨h1, h2, h3⟩

theorem finished_all_in_union (j : DownloadJob) (hf : j.is_finished = true)
    (hsub : jobSetsSubset j) (hd : jobSetsDisjoint j) :
    jobUnion j = j.track_ids.toFinset := by
  have hcard : j.finished_tracks = (jobUnion j).card := finished_union_card j hd
  simp only [DownloadJob.is_finished, decide_eq_true_eq] at hf
  apply Finset.eq_of_subset_of_card_le hsub
  have h1 : j.track_ids.toFinset.card ≤ j.track_ids.length := List.toFinset_card_le _
  unfold DownloadJob.total_tracks at hf
  omega

theorem mark_noop_no_task (q : DownloadQueue) (tid : String) (s : ProgressStatus)
    (h : dget q.track_tasks tid = none) : q.mark_track_complete tid s = (q, []) := by
  unfold DownloadQueue.mark_track_complete
  rw [h]

theorem mark_noop_no_job (q : DownloadQueue) (tid : String) (s : ProgressStatus)
    (task : TrackTask) (ht : dget q.track_tasks tid = some task)
    (hj : dget q.jobs task.job_id = none) : q.mark_track_complete tid s = (q, []) := by
  simp only [DownloadQueue.mark_track_complete, ht, hj]

theorem add_track_eq_none (q : DownloadQueue) (jid : String) (task : TrackTask)
    (h : dget q.jobs jid = none) :
    q.add_track jid task = Except.error (PyExc.keyError ("Job " ++ jid ++ " not found")) := by
  unfold DownloadQueue.add_track
  rw [h]

theorem add_track_eq_some (q : DownloadQueue) (jid : String) (task : TrackTask)
    (job : DownloadJob) (h : dget q.jobs jid = some job) :
    q.add_track jid task =
      Except.ok
        ({ q with
            jobs := dinsert jid { job with track_ids := job.track_ids ++ [task.track_id] } q.jobs
            track_tasks := dinsert task.track_id task q.track_tasks },
          [QueueEvent.progressTaskCreated task.track_id]) := by
  unfold DownloadQueue.add_track
  rw [h]

theorem runOps_cons (q : DownloadQueue) (op : QueueOp) (rest : List QueueOp) :
    runOps q (op :: rest) =
      ((runOps (op.apply q).1 rest).1, (op.apply q).2 ++ (runOps (op.apply q).1 rest).2) :=
  rfl

theorem otherBuckets_status (j : DownloadJob) (st : JobStatus) (s : ProgressStatus) :
    otherBuckets { j with status := st } s = otherBuckets j s := by
  cases s <;> rfl

theorem otherBuckets_bucketed_same (job : DownloadJob) (tid : String) (s : ProgressStatus) :
    otherBuckets (bucketed job tid s) s = otherBuckets job s := by
  cases s <;> rfl

theorem otherBuckets_bucketed_other (job : DownloadJob) (tid : String)
    (s s' : ProgressStatus) (hb : bucketStatus s = true) (hb' : bucketStatus s' = true)
    (hne : s ≠ s') :
    otherBuckets (bucketed job tid s) s' = insert tid (otherBuckets job s') := by
  cases s <;> cases s' <;>
    first
      | (ext x
         simp [otherBuckets, bucketed]
         first
           | done
           | tauto)
      | exact absurd rfl hne
      | (simp [bucketStatus] at hb
         done)
      | (simp [bucketStatus] at hb'
         done)

theorem otherBuckets_non_bucket (j : DownloadJob) (s : ProgressStatus)
    (h : bucketStatus s = false) : otherBuckets j s = ∅ := by
  cases s <;> first
    | rfl
    | simp [bucketStatus] at h

theorem bucketMarks_cons (op : QueueOp) (rest : List QueueOp) :
    bucketMarks (op :: rest) =
      (match op with
       | QueueOp.markTrackComplete tid s => if bucketStatus s then [(tid, s)] else []
       | _ => []) ++ bucketMarks rest := by
  cases op with
  | markTrackComplete tid s =>
    by_cases hb : bucketStatus s <;> simp [bucketMarks, List.filterMap_cons, hb]
  | createJob a b c d e f g h i => simp [bucketMarks, List.filterMap_cons]
  | addTrack a b => simp [bucketMarks, List.filterMap_cons]

theorem markTids_cons (op : QueueOp) (rest : List QueueOp) :
    markTids (op :: rest) =
      (match op with
       | QueueOp.markTrackComplete tid _ => [tid]
       | _ => []) ++ markTids rest := by
  cases op <;> simp [markTids, List.filterMap_cons]

theorem marksConsistent_tail (op : QueueOp) (rest : List QueueOp)
    (h : marksConsistent (op :: rest)) : marksConsistent rest := by
  unfold marksConsistent at *
  cases op with
  | markTrackComplete tid s =>
    by_cases hb : bucketStatus s
    · rw [show bucketMarks (QueueOp.markTrackComplete tid s :: rest) =
          (tid, s) :: bucketMarks rest from by
        simp [bucketMarks, List.filterMap_cons, hb]] at h
      exact (List.pairwise_cons.mp h).2
    · rw [show bucketMarks (QueueOp.markTrackComplete tid s :: rest) =
          bucketMarks rest from by
        simp [bucketMarks, List.filterMap_cons, hb]] at h
      exact h
  | createJob a b c d e f g i j =>
    rw [show bucketMarks (QueueOp.createJob a b c d e f g i j :: rest) =
        bucketMarks rest from by simp [bucketMarks, List.filterMap_cons]] at h
    exact h
  | addTrack a b =>
    rw [show bucketMarks (QueueOp.addTrack a b :: rest) = bucketMarks rest from by
      simp [bucketMarks, List.filterMap_cons]] at h
    exact h

theorem addsMatched_tail (op : QueueOp) (rest : List QueueOp)
    (h : addsMatched (op :: rest)) : addsMatched rest :=
  fun jid task hm => h jid task (List.mem_cons_of_mem _ hm)

theorem marksCompat_tail (q : DownloadQueue) (op : QueueOp) (rest : List QueueOp)
    (h : marksCompat q (op :: rest)) : marksCompat q rest :=
  fun tid s hm => h tid s (List.mem_cons_of_mem _ hm)

theorem step_createJob (jid url : String) (mt : MediaType)
    (mid mn nm ar dp cu : String) (rest : List QueueOp) (q : DownloadQueue)
    (hinv : queueSetsInvariant q) (hreg : tasksRegisteredOk q)
    (hcompat : marksCompat q (QueueOp.createJob jid url mt mid mn nm ar dp cu :: rest))
    (hfresh : dget q.jobs jid = none) :
    queueSetsInvariant ((QueueOp.createJob jid url mt mid mn nm ar dp cu).apply q).1 ∧
      tasksRegisteredOk ((QueueOp.createJob jid url mt mid mn nm ar dp cu).apply q).1 ∧
      marksCompat ((QueueOp.createJob jid url mt mid mn nm ar dp cu).apply q).1 rest := by
  have happ : ((QueueOp.createJob jid url mt mid mn nm ar dp cu).apply q).1 =
      { q with jobs := (dinsert jid
          ({ job_id := jid, original_url := url, media_type := mt, media_id := mid,
             module_name := mn, name := nm, artist := ar, download_path := dp,
             cover_url := cu } : DownloadJob) q.jobs) } := rfl
  rw [happ]
  refine ⟨?_, ?_, ?_⟩
  · intro jid' j' hj'
    simp only at hj'
    rw [dget_dinsert] at hj'
    by_cases he : jid' = jid
    · rw [if_pos he] at hj'
      injection hj' with hj'
      subst hj'
      constructor
      · unfold jobSetsSubset jobUnion
        simp
      · unfold jobSetsDisjoint
        simp
    · rw [if_neg he] at hj'
      exact hinv jid' j' hj'
  · intro tid task ht
    obtain ⟨hid, j, hjlook, hmem⟩ := hreg tid task ht
    refine ⟨hid, j, ?_, hmem⟩
    simp only
    rw [dget_dinsert_ne]
    · exact hjlook
    · intro he
      rw [he, hfresh] at hjlook
      exact Option.noConfusion hjlook
  · intro tid s hm hb jid' j' hj'
    simp only at hj'
    rw [dget_dinsert] at hj'
    by_cases he : jid' = jid
    · rw [if_pos he] at hj'
      injection hj' with hj'
      subst hj'
      cases s <;> simp [otherBuckets]
    · rw [if_neg he] at hj'
      exact hcompat tid s (List.mem_cons_of_mem _ hm) hb jid' j' hj'

theorem step_addTrack (jid : String) (task : TrackTask) (rest : List QueueOp)
    (q : DownloadQueue) (job : DownloadJob) (hjq : dget q.jobs jid = some job)
    (hmh : jid = task.job_id)
    (hinv : queueSetsInvariant q) (hreg : tasksRegisteredOk q)
    (hcompat : marksCompat q (QueueOp.addTrack jid task :: rest)) :
    queueSetsInvariant ((QueueOp.addTrack jid task).apply q).1 ∧
      tasksRegisteredOk ((QueueOp.addTrack jid task).apply q).1 ∧
      marksCompat ((QueueOp.addTrack jid task).apply q).1 rest := by
  have happ : ((QueueOp.addTrack jid task).apply q).1 =
      { q with
          jobs := (dinsert jid
            ({ job with track_ids := job.track_ids ++ [task.track_id] } : DownloadJob) q.jobs)
          track_tasks := (dinsert task.track_id task q.track_tasks) } := by
    simp [QueueOp.apply, add_track_eq_some q jid task job hjq]
  rw [happ]
  have hjobinv := hinv jid job hjq
  refine ⟨?_, ?_, ?_⟩
  · intro jid' j' hj'
    simp only at hj'
    rw [dget_dinsert] at hj'
    by_cases he : jid' = jid
    · rw [if_pos he] at hj'
      injection hj' with hj'
      subst hj'
      constructor
      · intro x hx
        have hx' := hjobinv.1 hx
        simp only [List.toFinset_append]
        exact Finset.mem_union_left _ hx'
      · exact hjobinv.2
    · rw [if_neg he] at hj'
      exact hinv jid' j' hj'
  · intro tid' task' ht'
    simp only at ht'
    rw [dget_dinsert] at ht'
    by_cases he : tid' = task.track_id
    · rw [if_pos he] at ht'
      injection ht' with ht'
      subst ht'
      refine ⟨he, { job with track_ids := job.track_ids ++ [task.track_id] }, ?_, ?_⟩
      · simp only
        rw [← hmh, dget_dinsert_self]
      · rw [he]
        simp
    · rw [if_neg he] at ht'
      obtain ⟨hid, j, hjlook, hmem⟩ := hreg tid' task' ht'
      by_cases hej : task'.job_id = jid
      · rw [hej] at hjlook
        have : j = job := by
          rw [hjq] at hjlook
          exact (Option.some.injEq _ _).mp hjlook.symm
        subst this
        refine ⟨hid, { j with track_ids := j.track_ids ++ [task.track_id] }, ?_, ?_⟩
        · simp only
          rw [hej, dget_dinsert_self]
        · simp only [List.mem_append]
          exact Or.inl hmem
      · refine ⟨hid, j, ?_, hmem⟩
        simp only
        rw [dget_dinsert_ne _ _ _ _ hej]
        exact hjlook
  · intro tid' s' hm' hb' jid' j' hj'
    simp only at hj'
    rw [dget_dinsert] at hj'
    by_cases he : jid' = jid
    · rw [if_pos he] at hj'
      injection hj' with hj'
      subst hj'
      have hold := hcompat tid' s' (List.mem_cons_of_mem _ hm') hb' jid job hjq
      cases s' <;> simpa [otherBuckets] using hold
    · rw [if_neg he] at hj'
      exact hcompat tid' s' (List.mem_cons_of_mem _ hm') hb' jid' j' hj'

theorem bucketMarks_mem (rest : List QueueOp) (tid : String) (s : ProgressStatus)
    (hm : QueueOp.markTrackComplete tid s ∈ rest) (hb : bucketStatus s = true) :
    (tid, s) ∈ bucketMarks rest := by
  unfold bucketMarks
  exact List.mem_filterMap.mpr ⟨QueueOp.markTrackComplete tid s, hm, by simp [hb]⟩

theorem mark_state_inv (q : DownloadQueue) (task : TrackTask) (job : DownloadJob)
    (tid : String) (s : ProgressStatus) (rest : List QueueOp) (J' : DownloadJob)
    (hJc : J'.completed_tracks = (bucketed job tid s).completed_tracks)
    (hJf : J'.failed_tracks = (bucketed job tid s).failed_tracks)
    (hJs : J'.skipped_tracks = (bucketed job tid s).skipped_tracks)
    (hJt : J'.track_ids = job.track_ids)
    (ht : dget q.track_tasks tid = some task)
    (hj : dget q.jobs task.job_id = some job)
    (hinv : queueSetsInvariant q) (hreg : tasksRegisteredOk q)
    (hcompat : marksCompat q (QueueOp.markTrackComplete tid s :: rest))
    (hcons : marksConsistent (QueueOp.markTrackComplete tid s :: rest)) :
    queueSetsInvariant { q with jobs := dinsert task.job_id J' q.jobs } ∧
      tasksRegisteredOk { q with jobs := dinsert task.job_id J' q.jobs } ∧
      marksCompat { q with jobs := dinsert task.job_id J' q.jobs } rest := by
  have hmem : tid ∈ job.track_ids := by
    obtain ⟨hid, j0, hj0, hmem0⟩ := hreg tid task ht
    rw [hj] at hj0
    injection hj0 with hj0
    rw [hj0]
    exact hmem0
  have hother : tid ∉ otherBuckets job s := by
    cases hbs : bucketStatus s with
    | true => exact hcompat tid s (List.mem_cons_self _ _) hbs task.job_id job hj
    | false =>
      rw [otherBuckets_non_bucket job s hbs]
      exact Finset.not_mem_empty tid
  have hsub' : jobSetsSubset (bucketed job tid s) :=
    bucketed_subset job tid s (hinv task.job_id job hj).1 hmem
  have hdisj' : jobSetsDisjoint (bucketed job tid s) :=
    bucketed_disjoint job tid s (hinv task.job_id job hj).2 hother
  have hJunion : jobUnion J' = jobUnion (bucketed job tid s) := by
    unfold jobUnion
    rw [hJc, hJf, hJs]
  have hJother : ∀ s', otherBuckets J' s' = otherBuckets (bucketed job tid s) s' := by
    intro s'
    cases s' <;> simp [otherBuckets, hJc, hJf, hJs]
  refine ⟨?_, ?_, ?_⟩
  · intro jid' j' hj'
    simp only at hj'
    rw [dget_dinsert] at hj'
    by_cases he : jid' = task.job_id
    · rw [if_pos he] at hj'
      injection hj' with hj'
      subst hj'
      constructor
      · unfold jobSetsSubset
        rw [hJunion, hJt]
        unfold jobSetsSubset at hsub'
        rw [bucketed_track_ids] at hsub'
        exact hsub'
      · unfold jobSetsDisjoint
        rw [hJc, hJf, hJs]
        exact hdisj'
    · rw [if_neg he] at hj'
      exact hinv jid' j' hj'
  · intro tid' task' ht'
    obtain ⟨hid, j0, hj0, hmem0⟩ := hreg tid' task' ht'
    by_cases he : task'.job_id = task.job_id
    · refine ⟨hid, J', ?_, ?_⟩
      · simp only
        rw [he, dget_dinsert_self]
      · rw [hJt]
        rw [he, hj] at hj0
        injection hj0 with hj0
        rw [hj0]
        exact hmem0
    · refine ⟨hid, j0, ?_, hmem0⟩
      simp only
      rw [dget_dinsert_ne _ _ _ _ he]
      exact hj0
  · intro tid' s' hm' hb' jid' j' hj'
    simp only at hj'
    rw [dget_dinsert] at hj'
    by_cases he : jid' = task.job_id
    · rw [if_pos he] at hj'
      injection hj' with hj'
      subst hj'
      rw [hJother s']
      cases hbs : bucketStatus s with
      | false =>
        rw [bucketed_non_bucket job tid s hbs]
        exact hcompat tid' s' (List.mem_cons_of_mem _ hm') hb' task.job_id job hj
      | true =>
        by_cases hss : s' = s
        · subst hss
          rw [otherBuckets_bucketed_same]
          exact hcompat tid' s' (List.mem_cons_of_mem _ hm') hb' task.job_id job hj
        · rw [otherBuckets_bucketed_other job tid s s' hbs hb' (fun hx => hss hx.symm)]
          rw [Finset.mem_insert]
          rintro (heq | hin)
          · have hpc : ∀ b ∈ bucketMarks rest, tid = b.1 → s = b.2 := by
              have := hcons
              unfold marksConsistent at this
              rw [show bucketMarks (QueueOp.markTrackComplete tid s :: rest) =
                  (tid, s) :: bucketMarks rest from by
                simp [bucketMarks, List.filterMap_cons, hbs]] at this
              exact (List.pairwise_cons.mp this).1
            have hbm := bucketMarks_mem rest tid' s' hm' hb'
            have := hpc (tid', s') hbm (by rw [heq])
            exact hss this.symm
          · exact hcompat tid' s' (List.mem_cons_of_mem _ hm') hb' task.job_id job hj hin
    · rw [if_neg he] at hj'
      exact hcompat tid' s' (List.mem_cons_of_mem _ hm') hb' jid' j' hj'

theorem step_mark (tid : String) (s : ProgressStatus) (rest : List QueueOp)
    (q : DownloadQueue)
    (hinv : queueSetsInvariant q) (hreg : tasksRegisteredOk q)
    (hcompat : marksCompat q (QueueOp.markTrackComplete tid s :: rest))
    (hcons : marksConsistent (QueueOp.markTrackComplete tid s :: rest)) :
    queueSetsInvariant ((QueueOp.markTrackComplete tid s).apply q).1 ∧
      tasksRegisteredOk ((QueueOp.markTrackComplete tid s).apply q).1 ∧
      marksCompat ((QueueOp.markTrackComplete tid s).apply q).1 rest := by
  cases ht : dget q.track_tasks tid with
  | none =>
    have happ : ((QueueOp.markTrackComplete tid s).apply q).1 = q := by
      show (q.mark_track_complete tid s).1 = q
      rw [mark_noop_no_task q tid s ht]
    rw [happ]
    exact ⟨hinv, hreg, marksCompat_tail q _ rest hcompat⟩
  | some task =>
    cases hj : dget q.jobs task.job_id with
    | none =>
      have happ : ((QueueOp.markTrackComplete tid s).apply q).1 = q := by
        show (q.mark_track_complete tid s).1 = q
        rw [mark_noop_no_job q tid s task ht hj]
      rw [happ]
      exact ⟨hinv, hreg, marksCompat_tail q _ rest hcompat⟩
    | some job =>
      have happ : ((QueueOp.markTrackComplete tid s).apply q).1 =
          { q with jobs := (dinsert task.job_id
            (if (bucketed job tid s).is_finished then
              { bucketed job tid s with status := terminalOf (bucketed job tid s) }
             else bucketed job tid s) q.jobs) } := by
        show (q.mark_track_complete tid s).1 = _
        rw [mark_track_complete_eq q tid s task job ht hj]
        by_cases hf : (bucketed job tid s).is_finished <;> simp [hf]
      rw [happ]
      by_cases hf : (bucketed job tid s).is_finished
      · rw [if_pos hf]
        exact mark_state_inv q task job tid s rest _ rfl rfl rfl
          (bucketed_track_ids job tid s) ht hj hinv hreg hcompat hcons
      · rw [if_neg hf]
        exact mark_state_inv q task job tid s rest _ rfl rfl rfl
          (bucketed_track_ids job tid s) ht hj hinv hreg hcompat hcons

theorem runOps_inv :
    ∀ (ops : List QueueOp) (q : DownloadQueue),
      queueSetsInvariant q → tasksRegisteredOk q → marksCompat q ops →
      createsFresh q ops → addsMatched ops → marksConsistent ops →
      queueSetsInvariant (runOps q ops).1 ∧ tasksRegisteredOk (runOps q ops).1 := by
  intro ops
  induction ops with
  | nil =>
    intro q h1 h2 _ _ _ _
    exact ⟨h1, h2⟩
  | cons op rest ih =>
    intro q hinv hreg hcompat hfresh hmatch hcons
    unfold createsFresh at hfresh
    rw [runOps_cons]
    cases op with
    | createJob jid url mt mid mn nm ar dp cu =>
      have hstep := step_createJob jid url mt mid mn nm ar dp cu rest q hinv hreg
        hcompat hfresh.1
      exact ih _ hstep.1 hstep.2.1 hstep.2.2 hfresh.2
        (addsMatched_tail _ rest hmatch) (marksConsistent_tail _ rest hcons)
    | addTrack jid task =>
      cases hjq : dget q.jobs jid with
      | none =>
        have happ : ((QueueOp.addTrack jid task).apply q).1 = q := by
          simp [QueueOp.apply, add_track_eq_none q jid task hjq]
        rw [happ]
        have hfresh2 : createsFresh q rest := by
          have := hfresh.2
          rw [happ] at this
          exact this
        exact ih q hinv hreg (marksCompat_tail q _ rest hcompat) hfresh2
          (addsMatched_tail _ rest hmatch) (marksConsistent_tail _ rest hcons)
      | some job =>
        have hstep := step_addTrack jid task rest q job hjq
          (hmatch jid task (List.mem_cons_self _ _)) hinv hreg hcompat
        exact ih _ hstep.1 hstep.2.1 hstep.2.2 hfresh.2
          (addsMatched_tail _ rest hmatch) (marksConsistent_tail _ rest hcons)
    | markTrackComplete tid s =>
      have hstep := step_mark tid s rest q hinv hreg hcompat hcons
      exact ih _ hstep.1 hstep.2.1 hstep.2.2 hfresh.2
        (addsMatched_tail _ rest hmatch) (marksConsistent_tail _ rest hcons)

theorem emptyQueue_sets_invariant : queueSetsInvariant emptyQueue := by
  intro jid j h
  simp [emptyQueue, dget] at h

theorem emptyQueue_tasks_registered : tasksRegisteredOk emptyQueue := by
  intro tid task h
  simp [emptyQueue, dget] at h

theorem emptyQueue_marksCompat (ops : List QueueOp) : marksCompat emptyQueue ops := by
  intro tid s _ _ jid j h
  simp [emptyQueue, dget] at h

/-- C2 (amended): in every queue state reachable from the empty queue by
`create_job` with fresh (uuid) ids, `add_track` called — as every call site
does — with `job_id = task.job_id`, and `mark_track_complete` where no track
id is marked with two different completion statuses, every job satisfies
`completed ∪ failed ∪ skipped ⊆ track_ids` with the three sets pairwise
disjoint.  (Marking one track with two different statuses breaks
disjointness — the counterexample.) -/
theorem c2_sets_invariant_amended :
    ∀ ops : List QueueOp, createsFresh emptyQueue ops → addsMatched ops →
      marksConsistent ops →
      ∀ jid j, dget (runOps emptyQueue ops).1.jobs jid = some j →
        jobSetsSubset j ∧ jobSetsDisjoint j := by
  intro ops hfresh hmatch hcons
  exact (runOps_inv ops emptyQueue emptyQueue_sets_invariant
    emptyQueue_tasks_registered (emptyQueue_marksCompat ops) hfresh hmatch hcons).1

theorem c2_sets_invariant_amended_witness :
    ∃ j, dget (runOps emptyQueue opsRepeat).1.jobs "j" = some j ∧
      jobSetsSubset j ∧ jobSetsDisjoint j := by
  obtain ⟨j, hj⟩ : ∃ j, dget (runOps emptyQueue opsRepeat).1.jobs "j" = some j :=
    ⟨_, rfl⟩
  refine ⟨j, hj, c2_sets_invariant_amended opsRepeat ?_ ?_ ?_ "j" j hj⟩
  · decide
  · intro jid task h
    simp only [opsRepeat, List.mem_cons] at h
    rcases h with h | h | h | h | h
    · exact absurd h (by simp)
    · obtain ⟨h1, h2⟩ := QueueOp.addTrack.inj h
      rw [h1, h2]
      rfl
    · exact absurd h (by simp)
    · exact absurd h (by simp)
    · exact absurd h (List.not_mem_nil _)
  · unfold marksConsistent
    rw [show bucketMarks opsRepeat =
        [("t", ProgressStatus.completed), ("t", ProgressStatus.completed)] from rfl]
    simp [List.pairwise_cons]

theorem mem_markTids (ops : List QueueOp) (tid : String) (s : ProgressStatus)
    (h : QueueOp.markTrackComplete tid s ∈ ops) : tid ∈ markTids ops := by
  unfold markTids
  exact List.mem_filterMap.mpr ⟨QueueOp.markTrackComplete tid s, h, rfl⟩

theorem otherBuckets_subset_union (j : DownloadJob) (s : ProgressStatus) :
    otherBuckets j s ⊆ jobUnion j := by
  cases s <;> unfold otherBuckets jobUnion <;> intro x hx <;>
    simp only [Finset.mem_union, Finset.not_mem_empty] at hx ⊢ <;> tauto

theorem bucketsFromPast_compat (q : DownloadQueue) (ops : List QueueOp)
    (h : bucketsFromPast q ops) : marksCompat q ops := by
  intro tid s hm hb jid j hj hmem
  have hu : tid ∈ jobUnion j := otherBuckets_subset_union j s hmem
  have h0 := h jid j tid hj hu
  have hpos : 0 < (markTids ops).count tid :=
    List.count_pos_iff_mem.mpr (mem_markTids ops tid s hm)
  omega

theorem bucketsFromPast_tail (q : DownloadQueue) (op : QueueOp) (rest : List QueueOp)
    (h : bucketsFromPast q (op :: rest)) : bucketsFromPast q rest := by
  intro jid j tid hj hu
  have h0 := h jid j tid hj hu
  rw [markTids_cons, List.count_append] at h0
  omega

theorem marksAtMostOnce_tail (op : QueueOp) (rest : List QueueOp)
    (h : marksAtMostOnce (op :: rest)) : marksAtMostOnce rest := by
  unfold marksAtMostOnce at *
  rw [markTids_cons] at h
  exact h.of_append_right

theorem mem_bucketMarks_mem_markTids (ops : List QueueOp) (tid : String)
    (s : ProgressStatus) (h : (tid, s) ∈ bucketMarks ops) : tid ∈ markTids ops := by
  unfold bucketMarks at h
  obtain ⟨op, hop, heq⟩ := List.mem_filterMap.mp h
  cases op with
  | markTrackComplete tid' s' =>
    by_cases hb : bucketStatus s'
    · simp only [hb, if_true] at heq
      injection heq with heq
      have h1 : tid' = tid := congrArg Prod.fst heq
      exact mem_markTids ops tid s' (h1 ▸ hop)
    · simp [hb] at heq
  | createJob a b c d e f g i j => exact absurd heq (by simp)
  | addTrack a b => exact absurd heq (by simp)

theorem marksAtMostOnce_consistent (ops : List QueueOp) (h : marksAtMostOnce ops) :
    marksConsistent ops := by
  induction ops with
  | nil =>
    unfold marksConsistent bucketMarks
    simp
  | cons op rest ih =>
    have htail := ih (marksAtMostOnce_tail op rest h)
    unfold marksConsistent at htail ⊢
    cases op with
    | markTrackComplete tid s =>
      by_cases hb : bucketStatus s
      · rw [show bucketMarks (QueueOp.markTrackComplete tid s :: rest) =
            (tid, s) :: bucketMarks rest from by
          simp [bucketMarks, List.filterMap_cons, hb]]
        refine List.pairwise_cons.mpr ⟨?_, htail⟩
        intro b hbm heq
        unfold marksAtMostOnce at h
        rw [markTids_cons] at h
        have hnotin : tid ∉ markTids rest := by
          have := List.nodup_cons.mp h
          exact this.1
        obtain ⟨b1, b2⟩ := b
        have hbt : b1 ∈ markTids rest := mem_bucketMarks_mem_markTids rest b1 b2 hbm
        have hb1 : tid = b1 := heq
        rw [← hb1] at hbt
        exact absurd hbt hnotin
      · rw [show bucketMarks (QueueOp.markTrackComplete tid s :: rest) =
            bucketMarks rest from by
          simp [bucketMarks, List.filterMap_cons, hb]]
        exact htail
    | createJob a b c d e f g i j =>
      rw [show bucketMarks (QueueOp.createJob a b c d e f g i j :: rest) =
          bucketMarks rest from by simp [bucketMarks, List.filterMap_cons]]
      exact htail
    | addTrack a b =>
      rw [show bucketMarks (QueueOp.addTrack a b :: rest) = bucketMarks rest from by
        simp [bucketMarks, List.filterMap_cons]]
      exact htail

theorem bucketsEmpty_not_finished (q : DownloadQueue) (h : bucketsEmpty q)
    (jid : String) (j : DownloadJob) (hj : dget q.jobs jid = some j) :
    j.is_finished = false ∨ j.track_ids = [] := by
  obtain ⟨h1, h2, h3⟩ := h jid j hj
  by_cases ht : j.track_ids = []
  · exact Or.inr ht
  · left
    unfold DownloadJob.is_finished DownloadJob.finished_tracks DownloadJob.total_tracks
    rw [h1, h2, h3]
    simp only [Finset.card_empty, decide_eq_false_iff_not, not_and_or]
    left
    have : j.track_ids.length ≠ 0 := fun hl => ht (List.length_eq_zero.mp hl)
    omega

theorem bucketsEmpty_fromPast (q : DownloadQueue) (h : bucketsEmpty q)
    (ops : List QueueOp) : bucketsFromPast q ops := by
  intro jid j tid hj hu
  obtain ⟨h1, h2, h3⟩ := h jid j hj
  unfold jobUnion at hu
  rw [h1, h2, h3] at hu
  simp at hu

theorem pop_step_bucketsEmpty (op : QueueOp) (q : DownloadQueue)
    (hop : isMarkOp op = false) (h : bucketsEmpty q) : bucketsEmpty (op.apply q).1 := by
  cases op with
  | markTrackComplete tid s => simp [isMarkOp] at hop
  | createJob jid url mt mid mn nm ar dp cu =>
    intro jid' j' hj'
    simp only [QueueOp.apply, DownloadQueue.create_job] at hj'
    rw [dget_dinsert] at hj'
    by_cases he : jid' = jid
    · rw [if_pos he] at hj'
      injection hj' with hj'
      subst hj'
      exact ⟨rfl, rfl, rfl⟩
    · rw [if_neg he] at hj'
      exact h jid' j' hj'
  | addTrack jid task =>
    cases hjq : dget q.jobs jid with
    | none =>
      have happ : ((QueueOp.addTrack jid task).apply q).1 = q := by
        simp [QueueOp.apply, add_track_eq_none q jid task hjq]
      rw [happ]
      exact h
    | some job =>
      have happ : ((QueueOp.addTrack jid task).apply q).1 =
          { q with
              jobs := (dinsert jid
                ({ job with track_ids := job.track_ids ++ [task.track_id] } : DownloadJob)
                q.jobs)
              track_tasks := (dinsert task.track_id task q.track_tasks) } := by
        simp [QueueOp.apply, add_track_eq_some q jid task job hjq]
      rw [happ]
      intro jid' j' hj'
      simp only at hj'
      rw [dget_dinsert] at hj'
      by_cases he : jid' = jid
      · rw [if_pos he] at hj'
        injection hj' with hj'
        subst hj'
        exact h jid job hjq
      · rw [if_neg he] at hj'
        exact h jid' j' hj'

theorem cbCount_append (J : String) (a b : List QueueEvent) :
    cbCount J (a ++ b) = cbCount J a + cbCount J b := by
  unfold cbCount
  rw [List.count_append]

theorem statusSetsFor_append (J : String) (a b : List QueueEvent) :
    statusSetsFor J (a ++ b) = statusSetsFor J a ++ statusSetsFor J b := by
  unfold statusSetsFor
  rw [List.filterMap_append]

theorem pop_step_no_events (op : QueueOp) (q : DownloadQueue)
    (hop : isMarkOp op = false) (J : String) :
    cbCount J (op.apply q).2 = 0 ∧ statusSetsFor J (op.apply q).2 = [] := by
  cases op with
  | markTrackComplete tid s => simp [isMarkOp] at hop
  | createJob jid url mt mid mn nm ar dp cu =>
    exact ⟨rfl, rfl⟩
  | addTrack jid task =>
    cases hjq : dget q.jobs jid with
    | none =>
      have : ((QueueOp.addTrack jid task).apply q).2 = [] := by
        simp [QueueOp.apply, add_track_eq_none q jid task hjq]
      rw [this]
      exact ⟨rfl, rfl⟩
    | some job =>
      have : ((QueueOp.addTrack jid task).apply q).2 =
          [QueueEvent.progressTaskCreated task.track_id] := by
        simp [QueueOp.apply, add_track_eq_some q jid task job hjq]
      rw [this]
      exact ⟨rfl, rfl⟩

theorem runOps_pop (ops : List QueueOp) :
    ∀ q : DownloadQueue, populationOnly ops → bucketsEmpty q →
      bucketsEmpty (runOps q ops).1 ∧
        ∀ J, cbCount J (runOps q ops).2 = 0 ∧ statusSetsFor J (runOps q ops).2 = [] := by
  induction ops with
  | nil =>
    intro q _ h
    exact ⟨h, fun J => ⟨rfl, rfl⟩⟩
  | cons op rest ih =>
    intro q hpop hbe
    have hop : isMarkOp op = false := hpop op (List.mem_cons_self _ _)
    have hpop' : populationOnly rest := fun o ho => hpop o (List.mem_cons_of_mem _ ho)
    obtain ⟨hbe', hev'⟩ := ih (op.apply q).1 hpop' (pop_step_bucketsEmpty op q hop hbe)
    rw [runOps_cons]
    refine ⟨hbe', fun J => ?_⟩
    obtain ⟨hc, hs⟩ := pop_step_no_events op q hop J
    constructor
    · show cbCount J ((op.apply q).2 ++ (runOps (op.apply q).1 rest).2) = 0
      rw [cbCount_append, hc, (hev' J).1]
    · show statusSetsFor J ((op.apply q).2 ++ (runOps (op.apply q).1 rest).2) = []
      rw [statusSetsFor_append, hs, (hev' J).2]
      rfl

theorem finish_events_cb (J K : String) (v : JobStatus) (c : Bool) :
    cbCount J (QueueEvent.jobStatusSet K v ::
        (if c then [QueueEvent.jobCompleteCallback K] else [])) =
      (if K = J then (if c then 1 else 0) else 0) := by
  cases c <;> by_cases h : K = J <;>
    simp [cbCount, List.count_cons, List.count_nil, h]

theorem finish_events_status (J K : String) (v : JobStatus) (c : Bool) :
    statusSetsFor J (QueueEvent.jobStatusSet K v ::
        (if c then [QueueEvent.jobCompleteCallback K] else [])) =
      (if K = J then [v] else []) := by
  cases c <;> by_cases h : K = J <;> simp [statusSetsFor, h]

theorem count_eq_zero_of_nodup_head (tid : String) (l : List String)
    (h : (tid :: l).Nodup) : l.count tid = 0 :=
  List.count_eq_zero.mpr (List.nodup_cons.mp h).1

theorem runOps_cons_noop (q : DownloadQueue) (op : QueueOp) (rest : List QueueOp)
    (h : op.apply q = (q, [])) : runOps q (op :: rest) = runOps q rest := by
  rw [runOps_cons, h]
  simp

theorem markTids_mark_cons (tid : String) (s : ProgressStatus) (rest : List QueueOp) :
    markTids (QueueOp.markTrackComplete tid s :: rest) = tid :: markTids rest := by
  simp [markTids, List.filterMap_cons]

theorem count_tail_zero (x tid : String) (l : List String)
    (h : (tid :: l).count x = 0) : l.count x = 0 := by
  rw [List.count_cons] at h
  omega

theorem marks_run (marks : List QueueOp) :
    ∀ (q : DownloadQueue) (J : String) (j0 : DownloadJob),
      marksOnly marks → queueSetsInvariant q → tasksRegisteredOk q →
      bucketsFromPast q marks → marksAtMostOnce marks →
      dget q.jobs J = some j0 →
      ∃ j1, dget (runOps q marks).1.jobs J = some j1 ∧
        j1.track_ids = j0.track_ids ∧ jobSetsSubset j1 ∧ jobSetsDisjoint j1 ∧
        (j0.is_finished = true → j1 = j0 ∧ cbCount J (runOps q marks).2 = 0 ∧
          statusSetsFor J (runOps q marks).2 = []) ∧
        (j0.is_finished = false →
          (j1.is_finished = false → cbCount J (runOps q marks).2 = 0 ∧
            statusSetsFor J (runOps q marks).2 = []) ∧
          (j1.is_finished = true →
            cbCount J (runOps q marks).2 = (if q.has_on_job_complete then 1 else 0) ∧
            statusSetsFor J (runOps q marks).2 = [terminalOf j1] ∧
            j1.status = terminalOf j1)) := by
  induction marks with
  | nil =>
    intro q J j0 _ hinv _ _ _ hJ
    refine ⟨j0, hJ, rfl, (hinv J j0 hJ).1, (hinv J j0 hJ).2, ?_, ?_⟩
    · intro _
      exact ⟨rfl, rfl, rfl⟩
    · intro hf
      exact ⟨fun _ => ⟨rfl, rfl⟩, fun htr => absurd htr (by simp [hf])⟩
  | cons op rest ih =>
    intro q J j0 hmo hinv hreg hpast hamo hJ
    have hopm : isMarkOp op = true := hmo op (List.mem_cons_self _ _)
    have hmo' : marksOnly rest := fun o ho => hmo o (List.mem_cons_of_mem _ ho)
    cases op with
    | createJob a b c d e f g i jj => simp [isMarkOp] at hopm
    | addTrack a b => simp [isMarkOp] at hopm
    | markTrackComplete tid s =>
      have hamo' : marksAtMostOnce rest := marksAtMostOnce_tail _ rest hamo
      cases ht : dget q.track_tasks tid with
      | none =>
        rw [runOps_cons_noop q (QueueOp.markTrackComplete tid s) rest
          (show QueueOp.apply q (QueueOp.markTrackComplete tid s) = (q, []) from
            mark_noop_no_task q tid s ht)]
        exact ih q J j0 hmo' hinv hreg (bucketsFromPast_tail q _ rest hpast) hamo' hJ
      | some task =>
        cases hj : dget q.jobs task.job_id with
        | none =>
          rw [runOps_cons_noop q (QueueOp.markTrackComplete tid s) rest
            (show QueueOp.apply q (QueueOp.markTrackComplete tid s) = (q, []) from
              mark_noop_no_job q tid s task ht hj)]
          exact ih q J j0 hmo' hinv hreg (bucketsFromPast_tail q _ rest hpast) hamo' hJ
        | some job =>
          have hmemJob : tid ∈ job.track_ids := by
            obtain ⟨hid, jx, hjx, hmx⟩ := hreg tid task ht
            rw [hj] at hjx
            injection hjx with hjx
            rw [hjx]
            exact hmx
          have hcompat : marksCompat q (QueueOp.markTrackComplete tid s :: rest) :=
            bucketsFromPast_compat q _ hpast
          have hcons : marksConsistent (QueueOp.markTrackComplete tid s :: rest) :=
            marksAtMostOnce_consistent _ hamo
          have hamoList : (tid :: markTids rest).Nodup := by
            have := hamo
            unfold marksAtMostOnce at this
            rw [markTids_mark_cons] at this
            exact this
          have htidrest : (markTids rest).count tid = 0 :=
            count_eq_zero_of_nodup_head tid _ hamoList
          have htidnotu : ∀ jid jx, dget q.jobs jid = some jx → tid ∉ jobUnion jx := by
            intro jid jx hjx hu
            have h0 := hpast jid jx tid hjx hu
            rw [markTids_mark_cons, List.count_cons_self] at h0
            omega
          have hrestcount : ∀ (x : String) jid jx, dget q.jobs jid = some jx →
              x ∈ jobUnion jx → (markTids rest).count x = 0 := by
            intro x jid jx hjx hxu
            have h0 := hpast jid jx x hjx hxu
            rw [markTids_mark_cons] at h0
            exact count_tail_zero x tid _ h0
          by_cases hf : (bucketed job tid s).is_finished
          · -- the mark finishes the job: terminal status assigned, callback fired
            have happ : (QueueOp.markTrackComplete tid s).apply q =
                ({ q with jobs := (dinsert task.job_id
                    ({ bucketed job tid s with
                        status := terminalOf (bucketed job tid s) } : DownloadJob) q.jobs) },
                  QueueEvent.jobStatusSet task.job_id (terminalOf (bucketed job tid s)) ::
                    (if q.has_on_job_complete then
                      [QueueEvent.jobCompleteCallback task.job_id] else [])) := by
              show q.mark_track_complete tid s = _
              rw [mark_track_complete_eq q tid s task job ht hj, if_pos hf]
            have hstep := mark_state_inv q task job tid s rest
              ({ bucketed job tid s with
                  status := terminalOf (bucketed job tid s) } : DownloadJob)
              rfl rfl rfl (bucketed_track_ids job tid s) ht hj hinv hreg hcompat hcons
            have hpast' : bucketsFromPast
                { q with jobs := (dinsert task.job_id
                    ({ bucketed job tid s with
                        status := terminalOf (bucketed job tid s) } : DownloadJob) q.jobs) }
                rest := by
              intro jid jx x hjx hxu
              simp only at hjx
              rw [dget_dinsert] at hjx
              by_cases he : jid = task.job_id
              · rw [if_pos he] at hjx
                injection hjx with hjx
                have hxu2 : x ∈ jobUnion (bucketed job tid s) := by
                  rw [← hjx] at hxu
                  exact hxu
                by_cases hbs : bucketStatus s
                · rw [jobUnion_bucketed job tid s hbs] at hxu2
                  rcases Finset.mem_insert.mp hxu2 with hx | hx
                  · rw [hx]
                    exact htidrest
                  · exact hrestcount x task.job_id job hj hx
                · rw [bucketed_non_bucket job tid s (Bool.eq_false_iff.mpr hbs)] at hxu2
                  exact hrestcount x task.job_id job hj hxu2
              · rw [if_neg he] at hjx
                exact hrestcount x jid jx hjx hxu
            rw [runOps_cons, happ]
            by_cases hKJ : task.job_id = J
            · have hjobj0 : job = j0 := by
                rw [hKJ] at hj
                rw [hj] at hJ
                injection hJ
              have hj0f : j0.is_finished = false := by
                by_cases hc : j0.is_finished = true
                · exfalso
                  have hcover := finished_all_in_union j0 hc (hinv J j0 hJ).1 (hinv J j0 hJ).2
                  have : tid ∈ jobUnion j0 := by
                    rw [hcover, List.mem_toFinset, ← hjobj0]
                    exact hmemJob
                  exact htidnotu J j0 hJ this
                · revert hc
                  cases j0.is_finished <;> simp
              have hdgetq' : dget (dinsert task.job_id
                  ({ bucketed job tid s with
                      status := terminalOf (bucketed job tid s) } : DownloadJob) q.jobs) J =
                  some ({ bucketed job tid s with
                      status := terminalOf (bucketed job tid s) } : DownloadJob) := by
                rw [← hKJ]
                exact dget_dinsert_self _ _ _
              obtain ⟨j1, hdget1, htr1, hsub1, hdis1, hfinT, hfinF⟩ :=
                ih _ J _ hmo' hstep.1 hstep.2.1 hpast' hamo' hdgetq'
              have hJpfin : ({ bucketed job tid s with
                  status := terminalOf (bucketed job tid s) } : DownloadJob).is_finished =
                  true := hf
              obtain ⟨hj1eq, hcb0, hss0⟩ := hfinT hJpfin
              refine ⟨j1, hdget1, ?_, hsub1, hdis1, ?_, ?_⟩
              · rw [htr1]
                rw [show ({ bucketed job tid s with
                    status := terminalOf (bucketed job tid s) } : DownloadJob).track_ids =
                    job.track_ids from bucketed_track_ids job tid s, hjobj0]
              · intro htt
                exact absurd htt (by simp [hj0f])
              · intro _
                constructor
                · intro hcontra
                  rw [hj1eq] at hcontra
                  rw [hJpfin] at hcontra
                  exact Bool.noConfusion hcontra
                · intro _
                  refine ⟨?_, ?_, ?_⟩
                  · rw [cbCount_append, finish_events_cb J task.job_id _ _, if_pos hKJ,
                      hcb0]
                    simp
                  · rw [statusSetsFor_append, finish_events_status J task.job_id _ _,
                      if_pos hKJ, hss0, hj1eq]
                    simp
                    rfl
                  · rw [hj1eq]
                    rfl
            · have hdgetq' : dget (dinsert task.job_id
                  ({ bucketed job tid s with
                      status := terminalOf (bucketed job tid s) } : DownloadJob) q.jobs) J =
                  some j0 := by
                rw [dget_dinsert_ne _ _ _ _ (fun he => hKJ he.symm)]
                exact hJ
              obtain ⟨j1, hdget1, htr1, hsub1, hdis1, hfinT, hfinF⟩ :=
                ih _ J _ hmo' hstep.1 hstep.2.1 hpast' hamo' hdgetq'
              have hcbev : cbCount J (QueueEvent.jobStatusSet task.job_id
                  (terminalOf (bucketed job tid s)) ::
                  (if q.has_on_job_complete then
                    [QueueEvent.jobCompleteCallback task.job_id] else [])) = 0 := by
                rw [finish_events_cb, if_neg hKJ]
              have hssev : statusSetsFor J (QueueEvent.jobStatusSet task.job_id
                  (terminalOf (bucketed job tid s)) ::
                  (if q.has_on_job_complete then
                    [QueueEvent.jobCompleteCallback task.job_id] else [])) = [] := by
                rw [finish_events_status, if_neg hKJ]
              refine ⟨j1, hdget1, htr1, hsub1, hdis1, ?_, ?_⟩
              · intro htt
                obtain ⟨he1, he2, he3⟩ := hfinT htt
                exact ⟨he1, by rw [cbCount_append, hcbev, he2],
                  by rw [statusSetsFor_append, hssev, he3]; rfl⟩
              · intro hff
                obtain ⟨hu1, hu2⟩ := hfinF hff
                constructor
                · intro hx
                  obtain ⟨he2, he3⟩ := hu1 hx
                  exact ⟨by rw [cbCount_append, hcbev, he2],
                    by rw [statusSetsFor_append, hssev, he3]; rfl⟩
                · intro hx
                  obtain ⟨he2, he3, he4⟩ := hu2 hx
                  exact ⟨by rw [cbCount_append, hcbev, he2]; simp,
                    by rw [statusSetsFor_append, hssev, he3]; rfl, he4⟩
          · -- the mark does not finish the job: set update only, no events
            have happ : (QueueOp.markTrackComplete tid s).apply q =
                ({ q with jobs := (dinsert task.job_id (bucketed job tid s) q.jobs) },
                  ([] : List QueueEvent)) := by
              show q.mark_track_complete tid s = _
              rw [mark_track_complete_eq q tid s task job ht hj, if_neg hf]
            have hstep := mark_state_inv q task job tid s rest (bucketed job tid s)
              rfl rfl rfl (bucketed_track_ids job tid s) ht hj hinv hreg hcompat hcons
            have hpast' : bucketsFromPast
                { q with jobs := (dinsert task.job_id (bucketed job tid s) q.jobs) }
                rest := by
              intro jid jx x hjx hxu
              simp only at hjx
              rw [dget_dinsert] at hjx
              by_cases he : jid = task.job_id
              · rw [if_pos he] at hjx
                injection hjx with hjx
                have hxu2 : x ∈ jobUnion (bucketed job tid s) := by
                  rw [← hjx] at hxu
                  exact hxu
                by_cases hbs : bucketStatus s
                · rw [jobUnion_bucketed job tid s hbs] at hxu2
                  rcases Finset.mem_insert.mp hxu2 with hx | hx
                  · rw [hx]
                    exact htidrest
                  · exact hrestcount x task.job_id job hj hx
                · rw [bucketed_non_bucket job tid s (Bool.eq_false_iff.mpr hbs)] at hxu2
                  exact hrestcount x task.job_id job hj hxu2
              · rw [if_neg he] at hjx
                exact hrestcount x jid jx hjx hxu
            rw [runOps_cons, happ]
            by_cases hKJ : task.job_id = J
            · have hjobj0 : job = j0 := by
                rw [hKJ] at hj
                rw [hj] at hJ
                injection hJ
              have hj0f : j0.is_finished = false := by
                by_cases hc : j0.is_finished = true
                · exfalso
                  have hcover := finished_all_in_union j0 hc (hinv J j0 hJ).1 (hinv J j0 hJ).2
                  have : tid ∈ jobUnion j0 := by
                    rw [hcover, List.mem_toFinset, ← hjobj0]
                    exact hmemJob
                  exact htidnotu J j0 hJ this
                · revert hc
                  cases j0.is_finished <;> simp
              have hdgetq' : dget (dinsert task.job_id (bucketed job tid s) q.jobs) J =
                  some (bucketed job tid s) := by
                rw [← hKJ]
                exact dget_dinsert_self _ _ _
              obtain ⟨j1, hdget1, htr1, hsub1, hdis1, hfinT, hfinF⟩ :=
                ih _ J _ hmo' hstep.1 hstep.2.1 hpast' hamo' hdgetq'
              have hBf : (bucketed job tid s).is_finished = false := by
                revert hf
                cases (bucketed job tid s).is_finished <;> simp
              obtain ⟨hu1, hu2⟩ := hfinF hBf
              refine ⟨j1, hdget1, ?_, hsub1, hdis1, ?_, ?_⟩
              · rw [htr1, bucketed_track_ids, hjobj0]
              · intro htt
                exact absurd htt (by simp [hj0f])
              · intro _
                constructor
                · intro hx
                  obtain ⟨he2, he3⟩ := hu1 hx
                  exact ⟨by rw [cbCount_append]; rw [he2]; simp [cbCount],
                    by rw [statusSetsFor_append]; rw [he3]; simp [statusSetsFor]⟩
                · intro hx
                  obtain ⟨he2, he3, he4⟩ := hu2 hx
                  exact ⟨by rw [cbCount_append]; rw [he2]; simp [cbCount],
                    by rw [statusSetsFor_append]; rw [he3]; simp [statusSetsFor], he4⟩
            · have hdgetq' : dget (dinsert task.job_id (bucketed job tid s) q.jobs) J =
                  some j0 := by
                rw [dget_dinsert_ne _ _ _ _ (fun he => hKJ he.symm)]
                exact hJ
              obtain ⟨j1, hdget1, htr1, hsub1, hdis1, hfinT, hfinF⟩ :=
                ih _ J _ hmo' hstep.1 hstep.2.1 hpast' hamo' hdgetq'
              refine ⟨j1, hdget1, htr1, hsub1, hdis1, ?_, ?_⟩
              · intro htt
                obtain ⟨he1, he2, he3⟩ := hfinT htt
                exact ⟨he1, by rw [cbCount_append]; rw [he2]; simp [cbCount],
                  by rw [statusSetsFor_append]; rw [he3]; simp [statusSetsFor]⟩
              · intro hff
                obtain ⟨hu1, hu2⟩ := hfinF hff
                constructor
                · intro hx
                  obtain ⟨he2, he3⟩ := hu1 hx
                  exact ⟨by rw [cbCount_append]; rw [he2]; simp [cbCount],
                    by rw [statusSetsFor_append]; rw [he3]; simp [statusSetsFor]⟩
                · intro hx
                  obtain ⟨he2, he3, he4⟩ := hu2 hx
                  exact ⟨by rw [cbCount_append]; rw [he2]; simp [cbCount],
                    by rw [statusSetsFor_append]; rw [he3]; simp [statusSetsFor], he4⟩

theorem runOps_append (a : List QueueOp) :
    ∀ (q : DownloadQueue) (b : List QueueOp),
      runOps q (a ++ b) =
        ((runOps (runOps q a).1 b).1,
          (runOps q a).2 ++ (runOps (runOps q a).1 b).2) := by
  induction a with
  | nil =>
    intro q b
    rfl
  | cons op rest ih =>
    intro q b
    rw [List.cons_append, runOps_cons, runOps_cons, ih]
    simp [List.append_assoc]

theorem emptyQueue_bucketsEmpty : bucketsEmpty emptyQueue := by
  intro jid j h
  simp [emptyQueue, dget] at h

theorem bucketMarks_nil_of_populationOnly (ops : List QueueOp)
    (h : populationOnly ops) : bucketMarks ops = [] := by
  induction ops with
  | nil => rfl
  | cons op rest ih =>
    have hop : isMarkOp op = false := h op (List.mem_cons_self _ _)
    have h' : populationOnly rest := fun o ho => h o (List.mem_cons_of_mem _ ho)
    cases op with
    | markTrackComplete tid s => simp [isMarkOp] at hop
    | createJob a b c d e f g i j =>
      show bucketMarks rest = []
      exact ih h'
    | addTrack jid task =>
      show bucketMarks rest = []
      exact ih h'

theorem marksConsistent_of_populationOnly (ops : List QueueOp)
    (h : populationOnly ops) : marksConsistent ops := by
  unfold marksConsistent
  rw [bucketMarks_nil_of_populationOnly ops h]
  exact List.Pairwise.nil

theorem mark_flag (q : DownloadQueue) (tid : String) (s : ProgressStatus) :
    (q.mark_track_complete tid s).1.has_on_job_complete = q.has_on_job_complete := by
  cases ht : dget q.track_tasks tid with
  | none => rw [mark_noop_no_task q tid s ht]
  | some task =>
    cases hj : dget q.jobs task.job_id with
    | none => rw [mark_noop_no_job q tid s task ht hj]
    | some job =>
      rw [mark_track_complete_eq q tid s task job ht hj]
      by_cases hf : (bucketed job tid s).is_finished = true
      · rw [if_pos hf]
      · rw [if_neg hf]

theorem apply_flag (op : QueueOp) (q : DownloadQueue) :
    (op.apply q).1.has_on_job_complete = q.has_on_job_complete := by
  cases op with
  | createJob jid url mt mid mn nm ar dp cu => rfl
  | addTrack jid task =>
    cases hjq : dget q.jobs jid with
    | none => simp [QueueOp.apply, add_track_eq_none q jid task hjq]
    | some job => simp [QueueOp.apply, add_track_eq_some q jid task job hjq]
  | markTrackComplete tid s => exact mark_flag q tid s

theorem runOps_flag (ops : List QueueOp) :
    ∀ q : DownloadQueue,
      (runOps q ops).1.has_on_job_complete = q.has_on_job_complete := by
  induction ops with
  | nil => intro q; rfl
  | cons op rest ih =>
    intro q
    rw [runOps_cons]
    show (runOps (op.apply q).1 rest).1.has_on_job_complete = _
    rw [ih _, apply_flag]

theorem terminalOf_ne_failed_status (j : DownloadJob) :
    terminalOf j ≠ JobStatus.failed := by
  unfold terminalOf
  split <;> simp

theorem statusSets_step_not_failed (op : QueueOp) (q : DownloadQueue) (J : String) :
    JobStatus.failed ∉ statusSetsFor J (op.apply q).2 := by
  cases op with
  | createJob jid url mt mid mn nm ar dp cu => simp [QueueOp.apply, statusSetsFor]
  | addTrack jid task =>
    cases hjq : dget q.jobs jid with
    | none =>
      simp [QueueOp.apply, add_track_eq_none q jid task hjq, statusSetsFor]
    | some job =>
      simp [QueueOp.apply, add_track_eq_some q jid task job hjq, statusSetsFor]
  | markTrackComplete tid s =>
    cases ht : dget q.track_tasks tid with
    | none =>
      rw [show (QueueOp.markTrackComplete tid s).apply q = (q, []) from
        mark_noop_no_task q tid s ht]
      simp [statusSetsFor]
    | some task =>
      cases hj : dget q.jobs task.job_id with
      | none =>
        rw [show (QueueOp.markTrackComplete tid s).apply q = (q, []) from
          mark_noop_no_job q tid s task ht hj]
        simp [statusSetsFor]
      | some job =>
        rw [show (QueueOp.markTrackComplete tid s).apply q = _ from
          mark_track_complete_eq q tid s task job ht hj]
        by_cases hf : (bucketed job tid s).is_finished = true
        · rw [if_pos hf]
          show JobStatus.failed ∉ statusSetsFor J
            (QueueEvent.jobStatusSet task.job_id (terminalOf (bucketed job tid s)) ::
              (if q.has_on_job_complete then
                [QueueEvent.jobCompleteCallback task.job_id] else []))
          rw [finish_events_status J task.job_id _ _]
          by_cases hKJ : task.job_id = J
          · rw [if_pos hKJ]
            simp only [List.mem_singleton]
            intro hc
            exact terminalOf_ne_failed_status (bucketed job tid s) hc.symm
          · rw [if_neg hKJ]
            exact List.not_mem_nil _
        · rw [if_neg hf]
          simp [statusSetsFor]

theorem statusSets_never_failed (ops : List QueueOp) :
    ∀ (q : DownloadQueue) (J : String),
      JobStatus.failed ∉ statusSetsFor J (runOps q ops).2 := by
  induction ops with
  | nil => intro q J; simp [runOps, statusSetsFor]
  | cons op rest ih =>
    intro q J
    rw [runOps_cons]
    show JobStatus.failed ∉
      statusSetsFor J ((op.apply q).2 ++ (runOps (op.apply q).1 rest).2)
    rw [statusSetsFor_append]
    simp only [List.mem_append]
    rintro (h | h)
    · exact statusSets_step_not_failed op q J h
    · exact ih _ J h

/-- C1 (amended): for a job with at least one track reachable by a
population phase (`create_job` with fresh ids, `add_track`) followed by a
processing phase of `mark_track_complete` calls in which each track id is
marked at most once, the job-completion callback is invoked exactly once for
the job if the marks finish it and zero times otherwise, and at finish every
one of the job's track ids lies in the union of its completed/failed/skipped
sets.  (With repeated marks for one track id the callback re-fires — see the
counterexample.) -/
theorem c1_callback_exactly_once_amended
    (pop marks : List QueueOp) (J : String) (j0 : DownloadJob)
    (hpop : populationOnly pop) (hmk : marksOnly marks)
    (hfresh : createsFresh emptyQueue pop) (hmatch : addsMatched pop)
    (hamo : marksAtMostOnce marks)
    (hJ : dget (runOps emptyQueue pop).1.jobs J = some j0)
    (hne : j0.track_ids ≠ []) :
    ∃ j1, dget (runOps emptyQueue (pop ++ marks)).1.jobs J = some j1 ∧
      j1.track_ids = j0.track_ids ∧
      cbCount J (runOps emptyQueue (pop ++ marks)).2 =
        (if j1.is_finished then 1 else 0) ∧
      (j1.is_finished = true → jobUnion j1 = j1.track_ids.toFinset) := by
  obtain ⟨hbe1, hev1⟩ := runOps_pop pop emptyQueue hpop emptyQueue_bucketsEmpty
  have hinv1 := runOps_inv pop emptyQueue emptyQueue_sets_invariant
    emptyQueue_tasks_registered (emptyQueue_marksCompat pop) hfresh hmatch
    (marksConsistent_of_populationOnly pop hpop)
  have hpast : bucketsFromPast (runOps emptyQueue pop).1 marks :=
    bucketsEmpty_fromPast _ hbe1 marks
  have hj0nf : j0.is_finished = false := by
    rcases bucketsEmpty_not_finished _ hbe1 J j0 hJ with h | h
    · exact h
    · exact absurd h hne
  obtain ⟨j1, hd1, htr, hsub, hdis, _, hfinF⟩ :=
    marks_run marks (runOps emptyQueue pop).1 J j0 hmk hinv1.1 hinv1.2 hpast hamo hJ
  have hflag : (runOps emptyQueue pop).1.has_on_job_complete = true :=
    runOps_flag pop emptyQueue
  rw [runOps_append]
  obtain ⟨hC, hF⟩ := hfinF hj0nf
  refine ⟨j1, hd1, htr, ?_, fun h1 => finished_all_in_union j1 h1 hsub hdis⟩
  show cbCount J ((runOps emptyQueue pop).2 ++ _) = _
  rw [cbCount_append, (hev1 J).1]
  by_cases h1 : j1.is_finished = true
  · rw [if_pos h1, (hF h1).1, hflag]
    simp
  · rw [if_neg h1, (hC (Bool.eq_false_iff.mpr h1)).1]

theorem c1_callback_exactly_once_amended_witness :
    ∃ j1, dget (runOps emptyQueue (popPhase ++ markOnce)).1.jobs "j" = some j1 ∧
      j1.track_ids = popJob.track_ids ∧
      cbCount "j" (runOps emptyQueue (popPhase ++ markOnce)).2 =
        (if j1.is_finished then 1 else 0) ∧
      (j1.is_finished = true → jobUnion j1 = j1.track_ids.toFinset) := by
  refine c1_callback_exactly_once_amended popPhase markOnce "j" popJob
    ?_ ?_ ?_ ?_ ?_ ?_ ?_
  · unfold populationOnly
    decide
  · unfold marksOnly
    decide
  · decide
  · intro jid task h
    simp only [popPhase, List.mem_cons] at h
    rcases h with h | h | h
    · exact absurd h (by simp)
    · obtain ⟨h1, h2⟩ := QueueOp.addTrack.inj h
      rw [h1, h2]
      rfl
    · exact absurd h (List.not_mem_nil _)
  · unfold marksAtMostOnce
    decide
  · decide
  · decide

/-- C4 (amended): under the two-phase discipline with each track id marked
at most once, a job's status is set to a terminal value exactly once — at
the mark that finishes it, the value being `terminalOf` the final record
(COMPLETED when its failed set is empty, PARTIAL otherwise) — and the final
record carries that status; and, unconditionally, the FAILED terminal value
is never emitted by per-track completion bookkeeping for ANY call sequence.
(A mark arriving after the job is finished re-assigns the terminal status —
see the counterexample.) -/
theorem c4_terminal_status_amended :
    (∀ (pop marks : List QueueOp) (J : String) (j0 : DownloadJob),
      populationOnly pop → marksOnly marks → createsFresh emptyQueue pop →
      addsMatched pop → marksAtMostOnce marks →
      dget (runOps emptyQueue pop).1.jobs J = some j0 → j0.track_ids ≠ [] →
      ∃ j1, dget (runOps emptyQueue (pop ++ marks)).1.jobs J = some j1 ∧
        statusSetsFor J (runOps emptyQueue (pop ++ marks)).2 =
          (if j1.is_finished then [terminalOf j1] else []) ∧
        (j1.is_finished = true → j1.status = terminalOf j1)) ∧
    (∀ (ops : List QueueOp) (q : DownloadQueue) (J : String),
      JobStatus.failed ∉ statusSetsFor J (runOps q ops).2) := by
  constructor
  · intro pop marks J j0 hpop hmk hfresh hmatch hamo hJ hne
    obtain ⟨hbe1, hev1⟩ := runOps_pop pop emptyQueue hpop emptyQueue_bucketsEmpty
    have hinv1 := runOps_inv pop emptyQueue emptyQueue_sets_invariant
      emptyQueue_tasks_registered (emptyQueue_marksCompat pop) hfresh hmatch
      (marksConsistent_of_populationOnly pop hpop)
    have hpast : bucketsFromPast (runOps emptyQueue pop).1 marks :=
      bucketsEmpty_fromPast _ hbe1 marks
    have hj0nf : j0.is_finished = false := by
      rcases bucketsEmpty_not_finished _ hbe1 J j0 hJ with h | h
      · exact h
      · exact absurd h hne
    obtain ⟨j1, hd1, _, _, _, _, hfinF⟩ :=
      marks_run marks (runOps emptyQueue pop).1 J j0 hmk hinv1.1 hinv1.2 hpast hamo hJ
    rw [runOps_append]
    obtain ⟨hC, hF⟩ := hfinF hj0nf
    refine ⟨j1, hd1, ?_, fun h1 => (hF h1).2.2⟩
    show statusSetsFor J ((runOps emptyQueue pop).2 ++ _) = _
    rw [statusSetsFor_append, (hev1 J).2]
    by_cases h1 : j1.is_finished = true
    · rw [if_pos h1, (hF h1).2.1]
      rfl
    · rw [if_neg h1, (hC (Bool.eq_false_iff.mpr h1)).2]
      rfl
  · exact fun ops q J => statusSets_never_failed ops q J

theorem c4_terminal_status_amended_witness :
    (∃ j1,
      dget (runOps emptyQueue (popPhase ++ markOnceSkipped)).1.jobs "j" = some j1 ∧
      statusSetsFor "j" (runOps emptyQueue (popPhase ++ markOnceSkipped)).2 =
        (if j1.is_finished then [terminalOf j1] else []) ∧
      (j1.is_finished = true → j1.status = terminalOf j1)) ∧
    JobStatus.failed ∉ statusSetsFor "j" (runOps emptyQueue opsConflict).2 := by
  constructor
  · refine c4_terminal_status_amended.1 popPhase markOnceSkipped "j" popJob
      ?_ ?_ ?_ ?_ ?_ ?_ ?_
    · unfold populationOnly
      decide
    · unfold marksOnly
      decide
    · decide
    · intro jid task h
      simp only [popPhase, List.mem_cons] at h
      rcases h with h | h | h
      · exact absurd h (by simp)
      · obtain ⟨h1, h2⟩ := QueueOp.addTrack.inj h
        rw [h1, h2]
        rfl
      · exact absurd h (List.not_mem_nil _)
    · unfold marksAtMostOnce
      decide
    · decide
    · decide
  · exact c4_terminal_status_amended.2 opsConflict emptyQueue "j"
